import Mathlib

/-!
The map renderer of dapper (`map.go`).

A shallow embedding of `visitMap`, `visitMapElements`, `formatMapKeys` and
`widths`, together with the pieces of Go's standard library and of `iago`
they call, followed by theorems about them.

Conventions of the embedding:

* a Go `string` / `[]byte` is a list of bytes, `len` is `List.length`;
* Go `int` values are `Int` (every number here is a string length or a
  difference of two of them);
* a panic is an error value carried in the result of a call (`Run.err`);
  `defer` is the code that runs on that result whether or not it carries one;
* `*visitor` is passed and returned explicitly.
-/

namespace Dapper

/-! ## Go strings -/

/-- Go `string`: an immutable sequence of bytes. -/
abbrev GoString := List UInt8

/-- Bytes of a literal, UTF-8 encoded as the Go compiler stores it. -/
def str (s : String) : GoString := s.toUTF8.data.toList

/-- Go's `<` on strings: byte-wise lexicographic comparison. -/
def GoString.less : GoString → GoString → Bool
  | [], [] => false
  | [], _ :: _ => true
  | _ :: _, [] => false
  | a :: as, b :: bs =>
    if a < b then true else if b < a then false else GoString.less as bs

/-- Go `strings.IndexByte`: index of the first `c` in `s`, or `-1`. -/
def IndexByte : GoString → UInt8 → Int
  | [], _ => -1
  | b :: bs, c =>
    if b = c then 0
    else
      let i := IndexByte bs c
      if i = -1 then -1 else i + 1

/-- Go `strings.Repeat`: panics on a negative count. -/
def Repeat (s : GoString) (count : Int) : Except String GoString :=
  if count < 0 then .error "strings: negative Repeat count"
  else .ok (List.replicate count.toNat s).flatten

/-- The byte `'\n'`. -/
def newline : UInt8 := 10

/-! ## `widths` -/

/-- The `for` loop of `widths`; `max` is the named result carried round the
loop. Every iteration that does not return drops at least one byte of `s`, so
`len(s) + 1` iterations are enough; `fuel` counts them. -/
def widthsLoop : Nat → GoString → Int → Int × Int
  | 0, s, max => (max, (s.length : Int))
  | fuel + 1, s, max =>
    let i := IndexByte s newline
    if i = -1 then
      let last : Int := s.length
      (if (s.length : Int) > max then (s.length : Int) else max, last)
    else
      let max := if i > max then i else max
      widthsLoop fuel (s.drop (i + 1).toNat) max

/-- Go `widths`: the length of the longest and of the last line of `s`. -/
def widths (s : GoString) : Int × Int :=
  widthsLoop (s.length + 1) s 0

/-! ## `sort.Slice` -/

/-- One insertion step: `x` goes in front of the first element it is less
than. -/
def insertBy {α : Type} (less : α → α → Bool) (x : α) : List α → List α
  | [] => [x]
  | y :: ys => if less x y then x :: y :: ys else y :: insertBy less x ys

/-- Go `sort.Slice(keys, less)`: a comparison sort of the slice. The library
does not promise stability; this model is an insertion sort, and the theorems
below use only that the result is a permutation ordered by `less`. -/
def sortSlice {α : Type} (less : α → α → Bool) : List α → List α
  | [] => []
  | x :: xs => insertBy less x (sortSlice less xs)

/-! ## `reflect` -/

/-- Go `reflect.Kind`, as far as the map renderer tells kinds apart. -/
inductive Kind
  | Invalid
  | Interface
  | Map
  | Other
  deriving DecidableEq, Repr

/-- Go `reflect.Type`. -/
inductive RType
  | basic (name : GoString)
  | iface (name : GoString)
  | map (key elem : RType)
  deriving DecidableEq, Repr

/-- Go `Type.Kind`. -/
def RType.Kind : RType → Kind
  | .basic _ => .Other
  | .iface _ => .Interface
  | .map _ _ => .Map

/-- Go `Type.Key`: the key type of a map type; panics on any other type. -/
def RType.Key : RType → Except String RType
  | .map k _ => .ok k
  | _ => .error "reflect: Key of non-map type"

/-- Go `Type.Elem`: the element type of a map type. (Go also answers for
arrays, channels, pointers and slices, which are not modelled.) -/
def RType.Elem : RType → Except String RType
  | .map _ e => .ok e
  | _ => .error "reflect: Elem of invalid type"

/-- Go `reflect.Value`. A map is a reference: the value holds the address of
the map and the memory holds its entries. -/
inductive RValue
  | invalid
  | basic (typ : RType) (data : GoString)
  | nilIface (typ : RType)
  | iface (typ : RType) (held : RValue)
  | map (typ : RType) (ptr : Nat)
  deriving DecidableEq, Repr

/-- Memory: the entries of the map at each address, in the order in which
`MapKeys` enumerates them on this run. -/
abbrev Heap := Nat → List (RValue × RValue)

/-- Go `Value.Type`: panics on the zero Value. -/
def RValue.Type : RValue → Except String RType
  | .invalid => .error "reflect: call of reflect.Value.Type on zero Value"
  | .basic t _ => .ok t
  | .nilIface t => .ok t
  | .iface t _ => .ok t
  | .map t _ => .ok t

/-- Go `Value.IsNil`: panics on the zero Value and on a kind that cannot be
nil. -/
def RValue.IsNil : RValue → Except String Bool
  | .invalid => .error "reflect: call of reflect.Value.IsNil on zero Value"
  | .basic _ _ => .error "reflect: call of reflect.Value.IsNil on a Value that cannot be nil"
  | .nilIface _ => .ok true
  | .iface _ _ => .ok false
  | .map _ _ => .ok false

/-- Go `Value.Elem`: the value an interface holds. -/
def RValue.Elem : RValue → RValue
  | .iface _ held => held
  | x => x

/-- Go `Value.Pointer`: the address of a map. -/
def RValue.Pointer : RValue → Nat
  | .map _ p => p
  | _ => 0

/-- Go `Value.Len` on a map; panics on the other kinds modelled here. -/
def RValue.Len (heap : Heap) : RValue → Except String Nat
  | .map _ p => .ok (heap p).length
  | _ => .error "reflect: call of reflect.Value.Len on non-map Value"

/-- Go `Value.MapKeys`: the keys, in unspecified order; panics on non-maps. -/
def RValue.MapKeys (heap : Heap) : RValue → Except String (List RValue)
  | .map _ p => .ok ((heap p).map Prod.fst)
  | _ => .error "reflect: call of reflect.Value.MapKeys on non-map Value"

/-- The conversion `Value.MapIndex` applies to its argument: a concrete value
is boxed when the key type of the map is an interface. -/
def assignTo (keyType : RType) (key : RValue) : RValue :=
  match keyType, key with
  | .iface _, .basic t d => .iface keyType (.basic t d)
  | .iface _, .map t p => .iface keyType (.map t p)
  | _, k => k

/-- Association-list lookup. -/
def lookupKey (key : RValue) : List (RValue × RValue) → RValue
  | [] => .invalid
  | (k, x) :: rest => if k = key then x else lookupKey key rest

/-- Go `Value.MapIndex`: the value stored under `key`, the zero Value if there
is none; panics on non-maps. -/
def RValue.MapIndex (heap : Heap) (m key : RValue) : Except String RValue :=
  match m with
  | .map (.map kt _) p => .ok (lookupKey (assignTo kt key) (heap p))
  | _ => .error "reflect: call of reflect.Value.MapIndex on non-map Value"

set_option linter.dupNamespace false

/-! ## `Value`, `visitor`, writers -/

/-- The `Value` descriptor handed from visitor to visitor. -/
structure Value where
  Value : RValue
  DynamicType : Option RType
  StaticType : RType
  IsAmbiguousDynamicType : Bool
  IsAmbiguousStaticType : Bool
  IsUnexported : Bool
  deriving DecidableEq, Repr

/-- One call made to the recursion guard. -/
inductive GuardCall
  | enter (ptr : Nat)
  | leave (ptr : Nat)
  deriving DecidableEq, Repr

/-- The `visitor` of one traversal: the configuration and the recursion
guard. -/
structure visitor where
  indent : GoString
  recursionMarker : GoString
  recursionSet : List Nat
  deriving DecidableEq, Repr

/-- Go `io.Writer` with state `σ`: `Write` returns the new state and the
error, if any. -/
structure Writer (σ : Type) where
  Write : σ → GoString → σ × Option String

/-- Go `strings.Builder`: appends, never fails. -/
def Builder : Writer GoString where
  Write := fun b p => (b ++ p, none)

/-- A sink that accepts `room` more bytes, then rejects with `e`: the bytes
that fit are written (a short write). -/
structure Limited where
  buf : GoString
  room : Nat
  e : String
  deriving DecidableEq, Repr

/-- The `Write` of a `Limited` sink. -/
def LimitedWriter : Writer Limited where
  Write := fun s p =>
    if p.length ≤ s.room then ({ s with buf := s.buf ++ p, room := s.room - p.length }, none)
    else ({ s with buf := s.buf ++ p.take s.room, room := 0 }, some s.e)

/-- The state of a call in progress or finished: the visitor, the writer, and
the panic in flight, if any. `calls` is a ghost field: the calls to `enter`
and `leave` that this activation itself has made, in order (those made inside
a nested `visit` belong to the nested activation). -/
structure Run (σ : Type) where
  vis : visitor
  w : σ
  err : Option String
  calls : List GuardCall

/-- A statement that completed. -/
def Run.ok {σ : Type} (vis : visitor) (w : σ) : Run σ :=
  { vis := vis, w := w, err := none, calls := [] }

/-- A statement that panicked. -/
def Run.panic {σ : Type} (vis : visitor) (w : σ) (e : String) : Run σ :=
  { vis := vis, w := w, err := some e, calls := [] }

/-- Sequencing: continue with `f` unless a panic is in flight. -/
def Run.andThen {σ : Type} (r : Run σ) (f : visitor → σ → Run σ) : Run σ :=
  match r.err with
  | some _ => r
  | none =>
    let r2 := f r.vis r.w
    { r2 with calls := r.calls ++ r2.calls }

/-- The `iago.MustWriteString` and `iago.MustWriteByte` helpers: write, panic
on error. -/
def MustWriteString {σ : Type} (W : Writer σ) (vis : visitor) (w : σ) (s : GoString) : Run σ :=
  let res := W.Write w s
  { vis := vis, w := res.1, err := res.2, calls := [] }

/-- The `Write` loop of the `iago` indenter: the indent goes out before the
first byte of every line. `fuel` bounds the iterations; `len(buf)` are
enough. -/
def indenterLoop {σ : Type} (W : Writer σ) (pre : GoString) :
    Nat → σ → Bool → GoString → (σ × Bool) × Option String
  | 0, w, indented, _ => ((w, indented), none)
  | fuel + 1, w, indented, buf =>
    if buf.length = 0 then ((w, indented), none)
    else
      let r := if indented then (w, none) else W.Write w pre
      match r.2 with
      | some e => ((r.1, indented), some e)
      | none =>
        let i := IndexByte buf newline
        if i = -1 then
          let r2 := W.Write r.1 buf
          ((r2.1, true), r2.2)
        else
          let r2 := W.Write r.1 (buf.take (i + 1).toNat)
          match r2.2 with
          | some e => ((r2.1, true), some e)
          | none => indenterLoop W pre fuel r2.1 false (buf.drop (i + 1).toNat)

/-- The default of the `iago` indenter: four spaces. -/
def defaultIndent : GoString := str "    "

/-- The `indent.NewIndenter(w, indent)` writer of `iago`: its state is the
state of `w` and whether the current line has its indent already. -/
def NewIndenter {σ : Type} (W : Writer σ) (ind : GoString) : Writer (σ × Bool) where
  Write := fun s buf =>
    indenterLoop W (if ind.length = 0 then defaultIndent else ind) buf.length s.1 s.2 buf

/-! ## The rest of the package, as `map.go` sees it -/

/-- What one call of `vis.visit` does: the bytes it hands to its writer, the
panic it ends in (a filter error, say), if any, and the visitor it leaves. -/
structure Rendered where
  text : GoString
  err : Option String
  vis : visitor

/-- The parts of the program that `map.go` uses and does not define: the
memory, the `IsAmbiguousType` and `TypeName` methods of `Value`, and the
generic dispatch `visit`, which renders any value (through the filters and
the other visitors, and through `visitMap` again for a nested map). -/
structure Env where
  heap : Heap
  IsAmbiguousType : Value → Bool
  TypeName : Value → GoString
  visit : visitor → Value → Rendered

/-- The call `vis.visit(w, v)`: the text of the rendering goes to `w`; a sink
error or the panic of the rendering itself is passed on. -/
def visitor.visit {σ : Type} (env : Env) (W : Writer σ) (vis : visitor) (w : σ)
    (v : Value) : Run σ :=
  let r := env.visit vis v
  let res := W.Write w r.text
  match res.2 with
  | some e => { vis := r.vis, w := res.1, err := some e, calls := [] }
  | none => { vis := r.vis, w := res.1, err := r.err, calls := [] }

/-- Modelled from the spec: `visitor.enter`, which is not in `map.go`. If the
identity of `v` is already on the guard it writes `<type>(<marker>)` and
returns true; otherwise it pushes the identity and returns false. -/
def visitor.enter {σ : Type} (env : Env) (W : Writer σ) (vis : visitor) (w : σ)
    (v : Value) : Run σ × Bool :=
  if v.Value.Pointer ∈ vis.recursionSet then
    ({ MustWriteString W vis w
        (env.TypeName v ++ str "(" ++ vis.recursionMarker ++ str ")") with
       calls := [GuardCall.enter v.Value.Pointer] }, true)
  else
    ({ vis := { vis with recursionSet := v.Value.Pointer :: vis.recursionSet },
       w := w, err := none, calls := [GuardCall.enter v.Value.Pointer] }, false)

/-- Modelled from the spec: `visitor.leave`, which is not in `map.go`. It
removes the identity of `v` from the guard. -/
def visitor.leave (vis : visitor) (v : Value) : visitor :=
  { vis with recursionSet := vis.recursionSet.erase v.Value.Pointer }

/-- The call `vis.leave(v)` at the end of a run. -/
def Run.leave {σ : Type} (r : Run σ) (v : Value) : Run σ :=
  { r with vis := r.vis.leave v, calls := r.calls ++ [GuardCall.leave v.Value.Pointer] }

/-! ## `map.go` -/

/-- The `mapKey` struct: the key, its rendering, the width of the last line
of the rendering. -/
structure mapKey where
  Value : RValue
  String : GoString
  Width : Int
  deriving DecidableEq, Repr

/-- The `less` closure passed to `sort.Slice`. -/
def mapKey.less (a b : mapKey) : Bool := GoString.less a.String b.String

/-- The variables of `formatMapKeys` that its loop updates, and the panic that
has ended it, if any. -/
structure KeysRun where
  vis : visitor
  keys : List mapKey
  alignment : Int
  alignToLastLine : Bool
  err : Option String

/-- The unwrapping both loops apply: `if isInterface && !x.IsNil() { x = x.Elem() }`. -/
def unwrap (isInterface : Bool) (x : RValue) : Except String RValue :=
  if isInterface then
    match x.IsNil with
    | .error e => .error e
    | .ok isNil => .ok (if !isNil then x.Elem else x)
  else .ok x

/-- The child `Value` that `formatMapKeys` builds for a key, and
`visitMapElements` for an element. -/
def childValue (v : Value) (x : RValue) (typ staticType : RType) (isInterface : Bool) : Value :=
  { Value := x
    DynamicType := some typ
    StaticType := staticType
    IsAmbiguousDynamicType := isInterface
    IsAmbiguousStaticType := false
    IsUnexported := v.IsUnexported }

/-- The loop of `formatMapKeys` over `v.Value.MapKeys()`. The builder `w` is
empty at the start of every iteration (`w.Reset()`). -/
def formatMapKeysLoop (env : Env) (v : Value) (staticType : RType) (isInterface : Bool) :
    List RValue → KeysRun → KeysRun
  | [], st => st
  | mk :: rest, st =>
    match unwrap isInterface mk with
    | .error e => { st with err := some e }
    | .ok mk =>
      match mk.Type with
      | .error e => { st with err := some e }
      | .ok typ =>
        let r := visitor.visit env Builder st.vis [] (childValue v mk typ staticType isInterface)
        match r.err with
        | some e => { st with vis := r.vis, err := some e }
        | none =>
          let s := r.w
          let wd := widths s
          let st1 : KeysRun :=
            if wd.1 > st.alignment then
              { st with alignment := wd.1, alignToLastLine := decide (wd.1 = wd.2) }
            else st
          formatMapKeysLoop env v staticType isInterface rest
            { st1 with
              vis := r.vis
              keys := st.keys ++ [{ Value := mk, String := s, Width := wd.2 }] }

/-- Go `formatMapKeys`: the keys of the map rendered and sorted by their
rendering, and the alignment. The slice `keys` is the list the loop builds:
`make([]mapKey, v.Value.Len())` gives it one slot per key, and `Len` panics
where `MapKeys` does. -/
def visitor.formatMapKeys (env : Env) (vis : visitor) (v : Value) : KeysRun :=
  let st0 : KeysRun :=
    { vis := vis, keys := [], alignment := 0, alignToLastLine := false, err := none }
  match v.DynamicType with
  | none => { st0 with err := some "nil pointer dereference" }
  | some dt =>
    match dt.Key with
    | .error e => { st0 with err := some e }
    | .ok staticType =>
      let isInterface := decide (staticType.Kind = Kind.Interface)
      match v.Value.MapKeys env.heap with
      | .error e => { st0 with err := some e }
      | .ok mks =>
        let st := formatMapKeysLoop env v staticType isInterface mks st0
        match st.err with
        | some _ => st
        | none =>
          { st with
            keys := sortSlice mapKey.less st.keys
            alignment := if !st.alignToLastLine then st.alignment - 1 else st.alignment }

/-- The loop of `visitMapElements` over the sorted keys. -/
def visitMapElementsLoop {σ : Type} (env : Env) (W : Writer σ) (v : Value)
    (staticType : RType) (isInterface : Bool) (alignment : Int) :
    List mapKey → visitor → σ → Run σ
  | [], vis, w => Run.ok vis w
  | mk :: rest, vis, w =>
    match v.Value.MapIndex env.heap mk.Value with
    | .error e => Run.panic vis w e
    | .ok mv0 =>
      match unwrap isInterface mv0 with
      | .error e => Run.panic vis w e
      | .ok mv =>
        (MustWriteString W vis w mk.String).andThen fun vis w =>
        (MustWriteString W vis w (str ": ")).andThen fun vis w =>
        match Repeat (str " ") (alignment - mk.Width) with
        | .error e => Run.panic vis w e
        | .ok pad =>
          (MustWriteString W vis w pad).andThen fun vis w =>
          match mv.Type with
          | .error e => Run.panic vis w e
          | .ok typ =>
            (visitor.visit env W vis w (childValue v mv typ staticType isInterface)).andThen
              fun vis w =>
            (MustWriteString W vis w (str "\n")).andThen fun vis w =>
            visitMapElementsLoop env W v staticType isInterface alignment rest vis w

/-- Go `visitMapElements`. -/
def visitor.visitMapElements {σ : Type} (env : Env) (W : Writer σ) (vis : visitor) (w : σ)
    (v : Value) : Run σ :=
  match v.DynamicType with
  | none => Run.panic vis w "nil pointer dereference"
  | some dt =>
    match dt.Elem with
    | .error e => Run.panic vis w e
    | .ok staticType =>
      let isInterface := decide (staticType.Kind = Kind.Interface)
      let kr := vis.formatMapKeys env v
      match kr.err with
      | some e => Run.panic kr.vis w e
      | none =>
        visitMapElementsLoop env W v staticType isInterface kr.alignment kr.keys kr.vis w

/-- The statements of `visitMap` after `defer vis.leave(v)`. -/
def visitMapBody {σ : Type} (env : Env) (W : Writer σ) (vis : visitor) (w : σ)
    (v : Value) : Run σ :=
  (if env.IsAmbiguousType v then MustWriteString W vis w (env.TypeName v)
   else Run.ok vis w).andThen fun vis w =>
  match v.Value.Len env.heap with
  | .error e => Run.panic vis w e
  | .ok n =>
    if n = 0 then MustWriteString W vis w (str "\x7b\x7d")
    else
      (MustWriteString W vis w (str "\x7b\n")).andThen fun vis w =>
      let r := visitor.visitMapElements env (NewIndenter W vis.indent) vis (w, false) v
      ({ vis := r.vis, w := r.w.1, err := r.err, calls := r.calls } : Run σ).andThen fun vis w =>
      MustWriteString W vis w (str "\x7d")

/-- Go `visitMap`. The deferred `leave` runs on every way out of the body,
a panic included. -/
def visitor.visitMap {σ : Type} (env : Env) (W : Writer σ) (vis : visitor) (w : σ)
    (v : Value) : Run σ :=
  let r0 := vis.enter env W w v
  match r0.1.err with
  | some _ => r0.1
  | none =>
    if r0.2 then r0.1
    else
      let r := visitMapBody env W r0.1.vis r0.1.w v
      ({ r with calls := r0.1.calls ++ r.calls } : Run σ).leave v

/-! ## Vocabulary of the statements -/

/-- Nested visits hand the visitor back as they found it: whatever they push
on the guard they pop again. -/
def Balanced (env : Env) : Prop :=
  ∀ (vis : visitor) (v : Value), (env.visit vis v).vis = vis

/-- The value `x` unwrapped, or `x` itself where the unwrapping panics. -/
def unwrapOr (isInterface : Bool) (x : RValue) : RValue :=
  match unwrap isInterface x with
  | .ok y => y
  | .error _ => x

/-- The type of `x`, or `dflt` for the zero Value. -/
def typeOr (dflt : RType) (x : RValue) : RType :=
  match x.Type with
  | .ok t => t
  | .error _ => dflt

/-- The child `Value` built for the enumerated key `k` of a map whose key type
is `kt`. -/
def keyValue (v : Value) (kt : RType) (k : RValue) : Value :=
  let isInterface := decide (kt.Kind = Kind.Interface)
  childValue v (unwrapOr isInterface k) (typeOr kt (unwrapOr isInterface k)) kt isInterface

/-- The `mapKey` of the enumerated key `k`: the key unwrapped, its own
rendering, the width of the last line of that rendering. -/
def keyOf (env : Env) (vis : visitor) (v : Value) (kt : RType) (k : RValue) : mapKey :=
  { Value := unwrapOr (decide (kt.Kind = Kind.Interface)) k
    String := (env.visit vis (keyValue v kt k)).text
    Width := (widths (env.visit vis (keyValue v kt k)).text).2 }

/-- The key `k` can be rendered: unwrapping it and asking its type do not
panic (it is not the zero Value, and it is of interface kind if the key type
is) and its rendering ends without a panic. -/
abbrev KeyRenders (env : Env) (vis : visitor) (v : Value) (kt : RType) (k : RValue) : Prop :=
  (unwrap (decide (kt.Kind = Kind.Interface)) k).toBool = true ∧
    (unwrapOr (decide (kt.Kind = Kind.Interface)) k).Type.toBool = true ∧
    (env.visit vis (keyValue v kt k)).err = none

/-- The child `Value` built for the element stored under `key` in a map whose
element type is `et`. -/
def elemValue (env : Env) (v : Value) (et : RType) (key : RValue) : Value :=
  let isInterface := decide (et.Kind = Kind.Interface)
  let mv0 :=
    match v.Value.MapIndex env.heap key with
    | .ok x => x
    | .error _ => RValue.invalid
  childValue v (unwrapOr isInterface mv0) (typeOr et (unwrapOr isInterface mv0)) et isInterface

/-- The padding `strings.Repeat(" ", n)` of a non-negative `n`. -/
def spaces (n : Int) : GoString := (List.replicate n.toNat (str " ")).flatten

/-- One entry as `visitMapElements` writes it: the rendered key, `": "`, the
padding, the rendered value, a newline. -/
def entryText (env : Env) (vis : visitor) (v : Value) (et : RType) (alignment : Int)
    (mk : mapKey) : GoString :=
  mk.String ++ str ": " ++ spaces (alignment - mk.Width) ++
    (env.visit vis (elemValue env v et mk.Value)).text ++ str "\n"

/-- One pass of the `if max > alignment` statement of `formatMapKeys`: `acc` is
`(alignment, alignToLastLine)`, `wd` the `(max, last)` of a key. -/
def alignStep (acc : Int × Bool) (wd : Int × Int) : Int × Bool :=
  if wd.1 > acc.1 then (wd.1, decide (wd.1 = wd.2)) else acc

/-- The length of the longest line over the `(max, last)` pairs `ws`, and at
least `a`. -/
def longestFrom (a : Int) : List (Int × Int) → Int
  | [] => a
  | w :: ws => longestFrom (if w.1 > a then w.1 else a) ws

/-- Whether the first pair of `ws` whose longest line has length `m` has that
line as its last line. -/
def firstAligns (m : Int) : List (Int × Int) → Bool
  | [] => false
  | w :: ws => if w.1 = m then decide (w.1 = w.2) else firstAligns m ws

/-- The `(max, last)` pairs of the enumerated keys, in enumeration order. -/
def keyWidths (env : Env) (vis : visitor) (v : Value) (kt : RType) (mks : List RValue) :
    List (Int × Int) :=
  mks.map (fun k => widths (keyOf env vis v kt k).String)

/-- The indent the `iago` indenter uses for `ind`. -/
def indentOf (ind : GoString) : GoString :=
  if ind.length = 0 then defaultIndent else ind

/-- What the indenter passes on for `buf`: the indent in front of the first
byte of every line; `indented` says whether the current line has it. -/
def indentText (pre : GoString) : Bool → GoString → GoString
  | _, [] => []
  | indented, c :: cs =>
    (if indented then [] else pre) ++ c :: indentText pre (decide (c ≠ newline)) cs

/-- Whether the line the indenter is on after `buf` has its indent. -/
def indentFlag : Bool → GoString → Bool
  | indented, [] => indented
  | _, c :: cs => indentFlag (decide (c ≠ newline)) cs

/-- The bytes the loop of `visitMapElements` hands to its writer, the panic it
ends in, if any, and the visitor it leaves. -/
def elementsLoopOut (env : Env) (v : Value) (staticType : RType) (isInterface : Bool)
    (alignment : Int) : List mapKey → visitor → Rendered
  | [], vis => { text := [], err := none, vis := vis }
  | mk :: rest, vis =>
    match v.Value.MapIndex env.heap mk.Value with
    | .error e => { text := [], err := some e, vis := vis }
    | .ok mv0 =>
      match unwrap isInterface mv0 with
      | .error e => { text := [], err := some e, vis := vis }
      | .ok mv =>
        match Repeat (str " ") (alignment - mk.Width) with
        | .error e => { text := mk.String ++ str ": ", err := some e, vis := vis }
        | .ok pad =>
          match mv.Type with
          | .error e => { text := mk.String ++ str ": " ++ pad, err := some e, vis := vis }
          | .ok typ =>
            let r := env.visit vis (childValue v mv typ staticType isInterface)
            match r.err with
            | some e =>
              { text := mk.String ++ str ": " ++ pad ++ r.text, err := some e, vis := r.vis }
            | none =>
              let o := elementsLoopOut env v staticType isInterface alignment rest r.vis
              { text := mk.String ++ str ": " ++ pad ++ r.text ++ str "\n" ++ o.text
                err := o.err
                vis := o.vis }

/-- The bytes `visitMapElements` hands to its writer, the panic it ends in, if
any, and the visitor it leaves. -/
def elementsOut (env : Env) (vis : visitor) (v : Value) : Rendered :=
  match v.DynamicType with
  | none => { text := [], err := some "nil pointer dereference", vis := vis }
  | some dt =>
    match dt.Elem with
    | .error e => { text := [], err := some e, vis := vis }
    | .ok staticType =>
      let kr := vis.formatMapKeys env v
      match kr.err with
      | some e => { text := [], err := some e, vis := kr.vis }
      | none =>
        elementsLoopOut env v staticType (decide (staticType.Kind = Kind.Interface))
          kr.alignment kr.keys kr.vis

/-- A writer that accepts every write and whose state after the writes
`p`, `q` is its state after the one write `p ++ q`: `emb s p` is the state `s`
with the bytes `p` written. -/
structure Faithful {σ : Type} (W : Writer σ) (emb : σ → GoString → σ) : Prop where
  write_eq : ∀ s p, W.Write s p = (emb s p, none)
  emb_append : ∀ s p q, emb (emb s p) q = emb s (p ++ q)
  emb_nil : ∀ s, emb s [] = s

/-- The state of an indenter over a builder after the bytes `p`. -/
def indentEmb (pre : GoString) (s : GoString × Bool) (p : GoString) : GoString × Bool :=
  (s.1 ++ indentText pre s.2 p, indentFlag s.2 p)

/-! ## An instance of the surroundings, for examples -/

/-- Go `Type.String` for the types modelled. -/
def RType.name : RType → GoString
  | .basic n => n
  | .iface n => n
  | .map k e => str "map[" ++ k.name ++ str "]" ++ e.name

/-- The type `int`. -/
def intT : RType := .basic (str "int")

/-- The type `string`. -/
def stringT : RType := .basic (str "string")

/-- The type `interface {}`. -/
def anyT : RType := .iface (str "interface \x7b\x7d")

/-- How the instances render a value that is not a map: the bytes of a basic
value, inside `type(...)` when its dynamic type is ambiguous. -/
def leafText (v : Value) : GoString :=
  match v.Value with
  | .basic t d => if v.IsAmbiguousDynamicType then t.name ++ str "(" ++ d ++ str ")" else d
  | _ => str "nil"

/-- An instance of the surroundings in which `visit` meets leaves only and
hands the visitor back untouched. -/
def leafEnv (heap : Heap) : Env where
  heap := heap
  IsAmbiguousType := fun v => v.IsAmbiguousDynamicType || v.IsAmbiguousStaticType
  TypeName := fun v =>
    match v.DynamicType with
    | some t => t.name
    | none => str "<nil>"
  visit := fun vis v => { text := leafText v, err := none, vis := vis }

/-- A visitor at the start of a traversal, with the default configuration. -/
def vis0 : visitor :=
  { indent := str "    ", recursionMarker := str "<recursion>", recursionSet := [] }

/-- A map `Value` of type `t` at address `ptr`, reached through a slot of that
same type. -/
def mapValue (t : RType) (ptr : Nat) : Value :=
  { Value := .map t ptr
    DynamicType := some t
    StaticType := t
    IsAmbiguousDynamicType := false
    IsAmbiguousStaticType := false
    IsUnexported := false }

/-- A memory with one map, at address 1. -/
def heapOf (entries : List (RValue × RValue)) : Heap :=
  fun p => if p = 1 then entries else []

/-- Modelled from the spec: the generic dispatch `visit`, which is not in
`map.go`, for a program whose values are maps and leaves. A map goes to
`visitMap`, which renders its keys and elements through the dispatch again;
anything else is a leaf. `fuel` is the depth of stack left: a traversal that
nests deeper than that overflows. -/
def dispatch (heap : Heap) : Nat → visitor → Value → Rendered
  | 0, vis, _ => { text := [], err := some "stack overflow", vis := vis }
  | fuel + 1, vis, v =>
    match v.Value with
    | .map _ _ =>
      let r := vis.visitMap { leafEnv heap with visit := dispatch heap fuel } Builder [] v
      { text := r.w, err := r.err, vis := r.vis }
    | _ => { text := leafText v, err := none, vis := vis }

/-! ## The maps of the examples -/

/-- A `string` value; `lit` is its literal, which is how the instances render
it. -/
def strVal (lit : String) : RValue := .basic stringT (str lit)

/-- An `int` value; `lit` is its literal. -/
def intVal (lit : String) : RValue := .basic intT (str lit)

/-- The type `map[string]int`. -/
def stringIntT : RType := .map stringT intT

/-- The type `map[string]string`. -/
def stringStringT : RType := .map stringT stringT

/-- The type `map[int]int`. -/
def intIntT : RType := .map intT intT

/-- The type `map[string]interface {}`. -/
def stringAnyT : RType := .map stringT anyT

/-- The map of `TestPrinter_SyncMapKeySorting`, enumerated `"foo"` first. -/
def sortingEntries : List (RValue × RValue) :=
  [(strVal "\"foo\"", intVal "1"), (strVal "\"bar\"", intVal "2")]

/-- The entries `1: 100` and `2: 200`, enumerated `2` first. -/
def intsEntries : List (RValue × RValue) :=
  [(intVal "2", intVal "200"), (intVal "1", intVal "100")]

/-- A key that renders as the three lines of the key
`multiline{Key: "multiline key"}` of `TestPrinter_MultilineSyncMapKeyAlignment`. -/
def multilineKey : RValue :=
  strVal "dapper_test.multiline\x7b\n    Key: \"multiline key\"\n\x7d"

/-- The map of `TestPrinter_MultilineSyncMapKeyAlignment`. -/
def galaxyEntries : List (RValue × RValue) :=
  [(strVal "\"short\"", strVal "\"one\""),
   (strVal "\"the longest key in the galaxy\"", strVal "\"two\""),
   (multilineKey, strVal "\"three\"")]

/-- A single-line key as wide as the widest line of `multilineKey`, and
`multilineKey`: the single-line key enumerated first. -/
def tieEntries : List (RValue × RValue) :=
  [(strVal "\"the longest key in the\"", strVal "\"one\""), (multilineKey, strVal "\"three\"")]

/-- The map of `tieEntries` with `multilineKey` enumerated first. -/
def tieEntriesSwapped : List (RValue × RValue) :=
  [(multilineKey, strVal "\"three\""), (strVal "\"the longest key in the\"", strVal "\"one\"")]

/-- A map with one key, which renders as a single newline. -/
def newlineKeyEntries : List (RValue × RValue) := [(strVal "\n", intVal "1")]

/-- The map of `TestPrinter_SyncMapRecursion`: under `"child"` it holds
itself. -/
def selfEntries : List (RValue × RValue) :=
  [(strVal "\"child\"", .iface anyT (.map stringAnyT 1))]

/-- A map `Value` at the root of a traversal: both ambiguity flags set. -/
def rootValue (t : RType) (ptr : Nat) : Value :=
  { mapValue t ptr with IsAmbiguousDynamicType := true, IsAmbiguousStaticType := true }

/-- The visitor `vis0` while the map at address 1 is being visited. -/
def vis1 : visitor := { vis0 with recursionSet := [1] }

/-! ## Lines of a string -/

/-- The lines of `s`: the pieces between its newline bytes, `k` newlines
giving `k + 1` lines, empty ones included. -/
def splitLines : GoString → List GoString
  | [] => [[]]
  | c :: cs =>
    if c = newline then [] :: splitLines cs
    else
      match splitLines cs with
      | [] => [[c]]
      | l :: ls => (c :: l) :: ls

/-- The byte length of the longest of the lines `ls`. -/
def longestLine : List GoString → Int
  | [] => 0
  | l :: ls => if (l.length : Int) > longestLine ls then (l.length : Int) else longestLine ls

/-- The byte length of the last of the lines `ls`. -/
def lastLine : List GoString → Int
  | [] => 0
  | [l] => (l.length : Int)
  | _ :: l :: ls => lastLine (l :: ls)

/-! ## The children of a map -/

/-- The flags and the static type of a child `x` of the map Value `v`, for a
key or an element whose declared type is `declared`. -/
abbrev ChildOf (v : Value) (declared : RType) (x : Value) : Prop :=
  x.StaticType = declared ∧
    x.IsAmbiguousDynamicType = decide (declared.Kind = Kind.Interface) ∧
    x.IsAmbiguousStaticType = false ∧
    x.IsUnexported = v.IsUnexported

/-- Go's typing of the values stored in a slot of type `declared`: a value of
a concrete type has that type, a slot of interface type holds an interface
value, nil or holding a value of a concrete type. -/
def hasType (declared : RType) : RValue → Bool
  | .invalid => false
  | .basic t _ => decide (t = declared) && decide (t.Kind = Kind.Other)
  | .nilIface t => decide (t = declared) && decide (t.Kind = Kind.Interface)
  | .iface t held =>
    decide (t = declared) && decide (t.Kind = Kind.Interface) &&
      (match held.Type with
       | .ok typ => decide (typ.Kind ≠ Kind.Interface)
       | .error _ => false)
  | .map t _ => decide (t = declared) && decide (t.Kind = Kind.Map)

/-- The child `x` made of the key or element `x0` of declared type
`declared`, in the three cases of the specification: a non-nil interface is
replaced by the value it holds, with the concrete type of that value; a nil
interface is kept, with the interface type; a value of a declared type that is
no interface is kept, with the declared type. -/
inductive Unwrapped (declared : RType) : RValue → Value → Prop
  | held (t : RType) (h : RValue) (typ : RType) (x : Value) :
      declared.Kind = Kind.Interface → h.Type = .ok typ → typ.Kind ≠ Kind.Interface →
      x.Value = h → x.DynamicType = some typ → Unwrapped declared (RValue.iface t h) x
  | nil (t : RType) (x : Value) :
      declared.Kind = Kind.Interface → x.Value = RValue.nilIface t →
      x.DynamicType = some declared → Unwrapped declared (RValue.nilIface t) x
  | direct (x0 : RValue) (x : Value) :
      declared.Kind ≠ Kind.Interface → x.Value = x0 →
      x.DynamicType = some declared → Unwrapped declared x0 x

/-- A map with an element held by an interface and a nil element. -/
def anyEntries : List (RValue × RValue) :=
  [(strVal "\"k\"", .iface anyT (intVal "1")), (strVal "\"n\"", .nilIface anyT)]

/-- The surroundings `env` with a `visit` that panics on every Value outside
`P`. -/
def restrictVisit (env : Env) (P : Value → Bool) : Env :=
  { env with
    visit := fun vis x =>
      if P x then env.visit vis x
      else { text := [], err := some "visit: not a child of the map", vis := vis } }

/-- The children the specification allows for a map from `string` to
`interface{}` reached through an exported slot: keys of static type `string`
not marked, elements of static type `interface{}` marked. -/
def stringAnyChild (x : Value) : Bool :=
  (decide (x.StaticType = stringT) && !x.IsAmbiguousDynamicType &&
      !x.IsAmbiguousStaticType && !x.IsUnexported) ||
    (decide (x.StaticType = anyT) && x.IsAmbiguousDynamicType &&
      !x.IsAmbiguousStaticType && !x.IsUnexported)

/-- The unwrapped children of the map `anyEntries`: the two keys with the
type `string`, the held `1` with the type `int`, and the nil interface with
the interface type. -/
def anyEntriesChild (x : Value) : Bool :=
  (decide (x.Value = strVal "\"k\"") && decide (x.DynamicType = some stringT)) ||
    (decide (x.Value = strVal "\"n\"") && decide (x.DynamicType = some stringT)) ||
    (decide (x.Value = intVal "1") && decide (x.DynamicType = some intT)) ||
    (decide (x.Value = .nilIface anyT) && decide (x.DynamicType = some anyT))

/-! ## `printer.go` -/

/-- Go `io.Writer` in full: `Write` returns the number of bytes written too,
which `map.go` never reads and `Writer` leaves out. -/
structure Sink (σ : Type) where
  Write : σ → GoString → σ × Int × Option String

/-- Go `strings.Builder` as a sink. -/
def BuilderSink : Sink GoString where
  Write := fun b p => (b ++ p, (p.length : Int), none)

/-- A `Limited` sink: a short write returns the number of bytes that fitted,
and the error. -/
def LimitedSink : Sink Limited where
  Write := fun s p =>
    if p.length ≤ s.room then
      ({ s with buf := s.buf ++ p, room := s.room - p.length }, (p.length : Int), none)
    else ({ s with buf := s.buf ++ p.take s.room, room := 0 }, (s.room : Int), some s.e)

/-- The `count.Writer` of `iago`: the writer it wraps and the bytes counted so
far. -/
structure CountWriter (σ : Type) where
  w : σ
  count : Int

/-- The `Write` of `count.NewWriter(w)`: forwards to `w` and adds the number of
bytes `w` reports. -/
def NewCountWriter {σ : Type} (S : Sink σ) : Writer (CountWriter σ) where
  Write := fun cw p =>
    let r := S.Write cw.w p
    ({ w := r.1, count := cw.count + r.2.1 }, r.2.2)

/-- Go `count.Writer.Count`. -/
def CountWriter.Count {σ : Type} (cw : CountWriter σ) : Int := cw.count

/-- The value a panic carries: the `must.PanicSentinel` that wraps an error,
or anything else. -/
inductive Panic
  | sentinel (cause : String)
  | value (x : String)
  deriving DecidableEq, Repr

/-- How a call ends: it returns, or a panic leaves it. -/
inductive Outcome (α : Type)
  | returned (a : α)
  | panicked (x : Panic)
  deriving DecidableEq, Repr

/-- The `DefaultIndent` of `printer.go`. -/
def DefaultIndent : GoString := str "    "

/-- The `DefaultRecursionMarker` of `printer.go`. -/
def DefaultRecursionMarker : GoString := str "<recursion>"

/-- The `Config` of a printer; `φ` is the type of filters. -/
structure Config (φ : Type) where
  Filters : List φ
  Indent : GoString
  RecursionMarker : GoString

/-- The `Printer` of `printer.go`. -/
structure Printer (φ : Type) where
  Config : Config φ

/-- The `visitor` as `printer.go` builds it, `visitor{config: p.Config}`: a
fresh visitor is its configuration. -/
structure Printer.visitor (φ : Type) where
  config : Dapper.Config φ

/-- The `emptyInterfaceType` of `printer.go`, the type `interface {}`. -/
def emptyInterfaceType : RType := .iface (str "interface \x7b\x7d")

/-- Go `Value.Kind`. -/
def RValue.Kind : RValue → Kind
  | .invalid => .Invalid
  | .basic t _ => t.Kind
  | .nilIface t => t.Kind
  | .iface t _ => t.Kind
  | .map t _ => t.Kind

/-- Go `reflect.ValueOf(v)` for `v interface{}`: `none` is the untyped nil,
which gives the zero Value; otherwise the value held. -/
def ValueOf : Option RValue → RValue
  | none => .invalid
  | some x => x

/-- What `mustVisit` leaves behind: the writer, and the panic in flight, if
any. -/
structure Traversal (τ : Type) where
  w : τ
  panic : Option Panic

/-- What a call of `Printer.Write` leaves behind: the printer, the sink, and
the results `(n, err)` or the panic that leaves the call. -/
structure Written (φ σ : Type) where
  p : Printer φ
  w : σ
  out : Outcome (Int × Option String)

/-- The `Printer.Write` of `printer.go`. `mustVisit` is the traversal, which
`printer.go` calls and does not define. The named results `n` and `err` start
at zero; `defer must.Recover(&err)` stores the cause of a `PanicSentinel` in
`err` and lets the call return, and panics again with any other value. -/
def Printer.Write {φ σ : Type}
    (mustVisit : Printer.visitor φ → Writer (CountWriter σ) → CountWriter σ → Value →
      Traversal (CountWriter σ))
    (p : Printer φ) (S : Sink σ) (w : σ) (v : Option RValue) : Written φ σ :=
  let n : Int := 0
  let vis : Printer.visitor φ := { config := p.Config }
  let vis : Printer.visitor φ :=
    if vis.config.Indent.length = 0 then
      { vis with config := { vis.config with Indent := DefaultIndent } }
    else vis
  let vis : Printer.visitor φ :=
    if vis.config.RecursionMarker = [] then
      { vis with config := { vis.config with RecursionMarker := DefaultRecursionMarker } }
    else vis
  let rv := ValueOf v
  let rt : Except String (Option RType) :=
    if rv.Kind ≠ Kind.Invalid then
      match rv.Type with
      | .ok t => .ok (some t)
      | .error e => .error e
    else .ok none
  match rt with
  | .error e => { p := p, w := w, out := .panicked (.value e) }
  | .ok rt =>
    let cw : CountWriter σ := { w := w, count := 0 }
    let t := mustVisit vis (NewCountWriter S) cw
      { Value := rv
        DynamicType := rt
        StaticType := emptyInterfaceType
        IsAmbiguousDynamicType := true
        IsAmbiguousStaticType := true
        IsUnexported := false }
    match t.panic with
    | none => { p := p, w := t.w.w, out := .returned (t.w.Count, none) }
    | some (.sentinel cause) => { p := p, w := t.w.w, out := .returned (n, some cause) }
    | some (.value x) => { p := p, w := t.w.w, out := .panicked (.value x) }

/-- The `Printer.Format` of `printer.go`: the printer after the call, and the
string returned or the panic. -/
def Printer.Format {φ : Type}
    (mustVisit : Printer.visitor φ → Writer (CountWriter GoString) → CountWriter GoString →
      Value → Traversal (CountWriter GoString))
    (p : Printer φ) (v : Option RValue) : Printer φ × Outcome GoString :=
  let r := p.Write mustVisit BuilderSink [] v
  match r.out with
  | .returned (_, some err) => (r.p, .panicked (.value err))
  | .returned (_, none) => (r.p, .returned r.w)
  | .panicked x => (r.p, .panicked x)

/-! ## Vocabulary and instances for `printer.go` -/

/-- The configuration of a traversal started by the printer `p`: that of `p`
with the defaults in the place of an empty indent and of an empty marker. -/
def Printer.traversalConfig {φ : Type} (p : Printer φ) : Dapper.Config φ :=
  { Filters := p.Config.Filters
    Indent := if p.Config.Indent.length = 0 then DefaultIndent else p.Config.Indent
    RecursionMarker :=
      if p.Config.RecursionMarker = [] then DefaultRecursionMarker else p.Config.RecursionMarker }

/-- The root `Value` for the input `v`. -/
def rootOf (v : Option RValue) : Value :=
  { Value := ValueOf v
    DynamicType := (ValueOf v).Type.toOption
    StaticType := emptyInterfaceType
    IsAmbiguousDynamicType := true
    IsAmbiguousStaticType := true
    IsUnexported := false }

/-- The traversal that `p.Write` starts. -/
def Printer.traversal {φ σ : Type}
    (mustVisit : Printer.visitor φ → Writer (CountWriter σ) → CountWriter σ → Value →
      Traversal (CountWriter σ))
    (p : Printer φ) (S : Sink σ) (w : σ) (v : Option RValue) : Traversal (CountWriter σ) :=
  mustVisit { config := p.traversalConfig } (NewCountWriter S) { w := w, count := 0 } (rootOf v)

/-- What the specification says of the root `Value` for the input `v`: both
flags set, exported, of static type `interface {}`, without a dynamic type
exactly for the untyped nil, and otherwise the value held with its run-time
type. -/
abbrev RootOf (v : Option RValue) (x : Value) : Prop :=
  x.IsAmbiguousDynamicType = true ∧ x.IsAmbiguousStaticType = true ∧
    x.IsUnexported = false ∧ x.StaticType = emptyInterfaceType ∧
    (x.DynamicType = none ↔ v = none) ∧
    ∀ rv, v = some rv → x.Value = rv ∧ rv.Type.toOption = x.DynamicType

/-- The visitor of `map.go` for a fresh visitor of `printer.go`: the same
indent and marker, nothing on the recursion guard. -/
def Printer.visitor.start {φ : Type} (vis : Printer.visitor φ) : Dapper.visitor :=
  { indent := vis.config.Indent
    recursionMarker := vis.config.RecursionMarker
    recursionSet := [] }

/-- The panic of a run of `map.go` written to a sink whose error is `e0`: a
panic that carries `e0` comes from `must.WriteString` and is a sentinel, any
other is a run-time panic. -/
def panicOf (e0 : String) (err : Option String) : Option Panic :=
  err.map fun e => if e = e0 then Panic.sentinel e else Panic.value e

/-- Modelled from the spec: an instance of the traversal `mustVisit`, which is
not in `printer.go`, for a program whose values are maps of leaves and leaves.
A map goes to `visitMap`; anything else is written as a leaf. -/
def mapTraversal (heap : Heap) (e0 : String) {φ τ : Type} (vis : Printer.visitor φ)
    (W : Writer τ) (w : τ) (x : Value) : Traversal τ :=
  match x.Value with
  | .map _ _ =>
    let r := vis.start.visitMap (leafEnv heap) W w x
    { w := r.w, panic := panicOf e0 r.err }
  | _ =>
    let r := MustWriteString W vis.start w (leafText x)
    { w := r.w, panic := panicOf e0 r.err }

/-- The traversal `mapTraversal`, which panics at once on a root `Value`
that is not as the specification says. -/
def rootTraversal (heap : Heap) (e0 : String) {φ τ : Type} (vis : Printer.visitor φ)
    (W : Writer τ) (w : τ) (x : Value) : Traversal τ :=
  if x.IsAmbiguousDynamicType && x.IsAmbiguousStaticType && !x.IsUnexported &&
      decide (x.StaticType = emptyInterfaceType) && x.DynamicType.isSome then
    mapTraversal heap e0 vis W w x
  else { w := w, panic := some (.value "visit: not a root") }

/-- A printer with the zero configuration. -/
def printer0 : Printer Unit :=
  { Config := { Filters := [], Indent := [], RecursionMarker := [] } }

/-- A sink with room for `room` bytes, which then fails with `"sink: full"`. -/
def sinkOf (room : Nat) : Limited := { buf := [], room := room, e := "sink: full" }

/-- The counts `alignment - mk.Width` that `visitMapElements` passes to
`strings.Repeat`, one for each key, in the order of the keys. -/
def paddingCounts (env : Env) (vis : visitor) (v : Value) : List Int :=
  (vis.formatMapKeys env v).keys.map fun mk => (vis.formatMapKeys env v).alignment - mk.Width

/-! ## Vocabulary for the elements of a map -/

/-- The value `MapIndex` returns for `key`, or the zero Value where it
panics. -/
def indexOr (env : Env) (v : Value) (key : RValue) : RValue :=
  match v.Value.MapIndex env.heap key with
  | .ok x => x
  | .error _ => RValue.invalid

/-- The element stored under `key` can be rendered: looking it up, unwrapping
it and asking its type do not panic, and its rendering ends without a
panic. -/
abbrev ElemRenders (env : Env) (vis : visitor) (v : Value) (et : RType) (key : RValue) : Prop :=
  (v.Value.MapIndex env.heap key).toBool = true ∧
    (unwrap (decide (et.Kind = Kind.Interface)) (indexOr env v key)).toBool = true ∧
    (unwrapOr (decide (et.Kind = Kind.Interface)) (indexOr env v key)).Type.toBool = true ∧
    (env.visit vis (elemValue env v et key)).err = none

/-- The first two entries of `TestPrinter_MultilineSyncMapKeyAlignment`, whose
keys render as single lines. -/
def shortLongEntries : List (RValue × RValue) :=
  [(strVal "\"short\"", strVal "\"one\""),
   (strVal "\"the longest key in the galaxy\"", strVal "\"two\"")]

/-- The map of `shortLongEntries` without its widest key. -/
def shortEntries : List (RValue × RValue) :=
  [(strVal "\"short\"", strVal "\"one\"")]

/-! # Lemmas -/

/-! ## Bytes and the order on strings -/

theorem byte_lt_iff (a b : UInt8) : a < b ↔ a.toNat < b.toNat := Iff.rfl

theorem byte_eq_of_toNat (a b : UInt8) (h : a.toNat = b.toNat) : a = b := by
  cases a; cases b
  simp only [UInt8.toNat] at h
  exact congrArg _ (BitVec.eq_of_toNat_eq h)

theorem byte_eq_of_not_lt (a b : UInt8) (h1 : ¬ a < b) (h2 : ¬ b < a) : a = b := by
  rw [byte_lt_iff] at h1 h2
  exact byte_eq_of_toNat a b (by omega)

theorem GoString.less_irrefl (s : GoString) : GoString.less s s = false := by
  induction s with
  | nil => rfl
  | cons a as ih => simp [GoString.less, ih, byte_lt_iff]

theorem GoString.less_asymm : ∀ (s t : GoString), GoString.less s t = true → GoString.less t s = false
  | [], [], h => by simp [GoString.less] at h
  | [], _ :: _, _ => by simp [GoString.less]
  | _ :: _, [], h => by simp [GoString.less] at h
  | a :: as, b :: bs, h => by
    simp only [GoString.less] at h ⊢
    by_cases hab : a < b
    · have hba : ¬ b < a := by rw [byte_lt_iff] at *; omega
      simp [hab, hba]
    · by_cases hba : b < a
      · simp [hab, hba] at h
      · simp only [hab, hba, if_false] at h ⊢
        exact GoString.less_asymm as bs h

/-- The order `s ≤ t`, that is `¬ t < s`, is transitive. -/
theorem GoString.le_trans : ∀ (s t u : GoString),
    GoString.less t s = false → GoString.less u t = false → GoString.less u s = false
  | [], _, [], _, _ => by simp [GoString.less]
  | [], _, _ :: _, _, _ => by simp [GoString.less]
  | _ :: _, [], _, h1, _ => by simp [GoString.less] at h1
  | _ :: _, _ :: _, [], _, h2 => by simp [GoString.less] at h2
  | a :: as, b :: bs, c :: cs, h1, h2 => by
    simp only [GoString.less] at h1 h2 ⊢
    by_cases hba : b < a
    · simp [hba] at h1
    · by_cases hab : a < b
      · by_cases hcb : c < b
        · simp [hcb] at h2
        · have hca : ¬ c < a := by rw [byte_lt_iff] at *; omega
          have hac : a < c := by rw [byte_lt_iff] at *; omega
          simp [hca, hac]
      · have e1 : a = b := byte_eq_of_not_lt a b hab hba
        subst e1
        simp only [hab, if_false] at h1
        by_cases hca : c < a
        · simp [hca] at h2
        · by_cases hac : a < c
          · simp [hca, hac]
          · simp only [hca, hac, if_false] at h2 ⊢
            exact GoString.le_trans as bs cs h1 h2

/-! ## `sort.Slice` -/

theorem insertBy_perm {α : Type} (less : α → α → Bool) (x : α) :
    ∀ l : List α, (insertBy less x l).Perm (x :: l)
  | [] => List.Perm.refl _
  | y :: ys => by
    unfold insertBy
    split
    · exact List.Perm.refl _
    · exact ((insertBy_perm less x ys).cons y).trans (List.Perm.swap x y ys)

theorem sortSlice_perm {α : Type} (less : α → α → Bool) :
    ∀ l : List α, (sortSlice less l).Perm l
  | [] => List.Perm.refl _
  | x :: xs => (insertBy_perm less x _).trans ((sortSlice_perm less xs).cons x)

theorem insertBy_sorted {α : Type} (less : α → α → Bool)
    (hasymm : ∀ a b, less a b = true → less b a = false)
    (htrans : ∀ a b c, less b a = false → less c b = false → less c a = false) (x : α) :
    ∀ l : List α, l.Pairwise (fun a b => less b a = false) →
      (insertBy less x l).Pairwise (fun a b => less b a = false)
  | [], _ => by simp [insertBy]
  | y :: ys, h => by
    unfold insertBy
    rw [List.pairwise_cons] at h
    split
    · rename_i hxy
      rw [List.pairwise_cons]
      refine ⟨?_, List.pairwise_cons.mpr h⟩
      intro z hz
      rcases List.mem_cons.mp hz with rfl | hz
      · exact hasymm _ _ hxy
      · exact htrans x y z (hasymm _ _ hxy) (h.1 z hz)
    · rename_i hxy
      rw [List.pairwise_cons]
      refine ⟨?_, insertBy_sorted less hasymm htrans x ys h.2⟩
      intro z hz
      rcases List.mem_cons.mp ((insertBy_perm less x ys).subset hz) with rfl | hz
      · simpa using hxy
      · exact h.1 z hz

theorem sortSlice_sorted {α : Type} (less : α → α → Bool)
    (hasymm : ∀ a b, less a b = true → less b a = false)
    (htrans : ∀ a b c, less b a = false → less c b = false → less c a = false) :
    ∀ l : List α, (sortSlice less l).Pairwise (fun a b => less b a = false)
  | [] => List.Pairwise.nil
  | x :: xs => insertBy_sorted less hasymm htrans x _ (sortSlice_sorted less hasymm htrans xs)

theorem sortSlice_mapKey_sorted (l : List mapKey) :
    (sortSlice mapKey.less l).Pairwise (fun a b => GoString.less b.String a.String = false) :=
  sortSlice_sorted mapKey.less (fun a b => GoString.less_asymm a.String b.String)
    (fun a b c => GoString.le_trans a.String b.String c.String) l


/-! ## `IndexByte` and the indenter -/

theorem IndexByte_spec (c : UInt8) : ∀ s : GoString,
    (IndexByte s c = -1 ∧ c ∉ s) ∨
      (∃ l r, s = l ++ c :: r ∧ c ∉ l ∧ IndexByte s c = (l.length : Int))
  | [] => Or.inl ⟨rfl, by simp⟩
  | b :: bs => by
    by_cases hbc : b = c
    · right
      exact ⟨[], bs, by simp [hbc], by simp, by simp [IndexByte, hbc]⟩
    · rcases IndexByte_spec c bs with ⟨h1, h2⟩ | ⟨l, r, h1, h2, h3⟩
      · left
        refine ⟨by simp [IndexByte, hbc, h1], ?_⟩
        simp only [List.mem_cons, not_or]
        exact ⟨fun h => hbc h.symm, h2⟩
      · right
        refine ⟨b :: l, r, by simp [h1], ?_, ?_⟩
        · simp only [List.mem_cons, not_or]
          exact ⟨fun h => hbc h.symm, h2⟩
        · have hne : (l.length : Int) ≠ -1 := by omega
          simp [IndexByte, hbc, h3, hne]

theorem indentText_append (pre : GoString) : ∀ (p : GoString) (f : Bool) (q : GoString),
    indentText pre f (p ++ q) = indentText pre f p ++ indentText pre (indentFlag f p) q
  | [], _, _ => by simp [indentText, indentFlag]
  | c :: p, f, q => by
    simp [indentText, indentFlag, indentText_append pre p]

theorem indentFlag_append : ∀ (p : GoString) (f : Bool) (q : GoString),
    indentFlag f (p ++ q) = indentFlag (indentFlag f p) q
  | [], _, _ => by simp [indentFlag]
  | c :: p, f, q => by
    simp [indentFlag, indentFlag_append p]

theorem indentText_line (pre : GoString) : ∀ (l : GoString) (f : Bool),
    newline ∉ l → indentText pre true l = l ∧
      (l ≠ [] → indentText pre f l = (if f then [] else pre) ++ l ∧ indentFlag f l = true)
  | [], _, _ => by simp [indentText]
  | c :: l, f, hn => by
    have hc : c ≠ newline := by
      intro h; apply hn; simp [h]
    have hn2 : newline ∉ l := fun h => hn (List.mem_cons_of_mem _ h)
    have ih := indentText_line pre l true hn2
    refine ⟨by simp [indentText, hc, ih.1], fun _ => ?_⟩
    refine ⟨by simp [indentText, hc, ih.1], ?_⟩
    cases l with
    | nil => simp [indentFlag, hc]
    | cons d l => simpa [indentFlag, hc] using (ih.2 (by simp)).2

theorem indenterLoop_Builder (pre : GoString) : ∀ (fuel : Nat) (b : GoString) (f : Bool)
    (buf : GoString), buf.length ≤ fuel →
    indenterLoop Builder pre fuel b f buf =
      ((b ++ indentText pre f buf, indentFlag f buf), none)
  | 0, b, f, buf, h => by
    have : buf = [] := List.eq_nil_of_length_eq_zero (by omega)
    subst this
    simp [indenterLoop, indentText, indentFlag]
  | fuel + 1, b, f, buf, h => by
    unfold indenterLoop
    by_cases hlen : buf.length = 0
    · have : buf = [] := List.eq_nil_of_length_eq_zero hlen
      subst this
      simp [indentText, indentFlag]
    · have hne : buf ≠ [] := fun h0 => hlen (by simp [h0])
      simp only [hlen, if_false]
      have hr : (if f = true then (b, (none : Option String)) else Builder.Write b pre) =
          (b ++ (if f = true then [] else pre), none) := by
        cases f <;> simp [Builder]
      rw [hr]
      simp only []
      rcases IndexByte_spec newline buf with ⟨h1, h2⟩ | ⟨l, r, h1, h2, h3⟩
      · have hl := (indentText_line pre buf f h2).2 hne
        simp [h1, Builder, hl.1, hl.2]
      · have hne1 : (l.length : Int) ≠ -1 := by omega
        have htake : List.take (l.length + 1) buf = l ++ [newline] := by
          rw [h1, List.take_append_eq_append_take]
          simp
        have hdrop : List.drop (l.length + 1) buf = r := by
          rw [h1, List.drop_append_eq_append_drop]
          simp
        have hnat : ((l.length : Int) + 1).toNat = l.length + 1 := by omega
        simp only [h3, hne1, if_false, hnat, htake, hdrop, Builder]
        have hrl : r.length ≤ fuel := by
          have : buf.length = l.length + 1 + r.length := by rw [h1]; simp; omega
          omega
        have ih := indenterLoop_Builder pre fuel (b ++ (if f = true then [] else pre) ++ (l ++ [newline])) false r hrl
        simp only [Builder] at ih
        have e1 : l ++ newline :: r = (l ++ [newline]) ++ r := by simp
        have hfl : indentFlag f (l ++ [newline]) = false := by
          rw [indentFlag_append]
          cases l with
          | nil => simp [indentFlag]
          | cons d l => simp [indentFlag]
        have htx : indentText pre f (l ++ [newline]) =
            (if f = true then [] else pre) ++ (l ++ [newline]) := by
          cases l with
          | nil => simp [indentText]
          | cons d l =>
            rw [indentText_append, ((indentText_line pre (d :: l) f h2).2 (by simp)).1,
              ((indentText_line pre (d :: l) f h2).2 (by simp)).2]
            simp [indentText]
        have ht : indentText pre f (l ++ newline :: r) =
            (if f = true then [] else pre) ++ (l ++ [newline]) ++ indentText pre false r := by
          rw [e1, indentText_append, hfl, htx]
        have hf : indentFlag f (l ++ newline :: r) = indentFlag false r := by
          rw [e1, indentFlag_append, hfl]
        rw [ih, h1, ht, hf]
        simp

theorem Builder_faithful : Faithful Builder (fun s p => s ++ p) where
  write_eq := fun _ _ => rfl
  emb_append := fun s p q => by simp
  emb_nil := fun s => by simp

theorem NewIndenter_faithful (ind : GoString) :
    Faithful (NewIndenter Builder ind) (indentEmb (indentOf ind)) where
  write_eq := fun s p => by
    simp only [NewIndenter, indentEmb, indentOf]
    exact indenterLoop_Builder _ p.length s.1 s.2 p (Nat.le_refl _)
  emb_append := fun s p q => by
    simp [indentEmb, indentText_append, indentFlag_append]
  emb_nil := fun s => by simp [indentEmb, indentText, indentFlag]


/-! ## What the statements of `map.go` hand to a writer that keeps everything -/

theorem MustWriteString_faithful {σ : Type} {W : Writer σ} {emb : σ → GoString → σ}
    (hW : Faithful W emb) (vis : visitor) (s : σ) (p : GoString) :
    MustWriteString W vis s p = { vis := vis, w := emb s p, err := none, calls := [] } := by
  simp [MustWriteString, hW.write_eq]

theorem visit_faithful {σ : Type} {W : Writer σ} {emb : σ → GoString → σ}
    (hW : Faithful W emb) (env : Env) (vis : visitor) (s : σ) (v : Value) :
    visitor.visit env W vis s v =
      { vis := (env.visit vis v).vis, w := emb s (env.visit vis v).text,
        err := (env.visit vis v).err, calls := [] } := by
  simp [visitor.visit, hW.write_eq]

theorem andThen_ok {σ : Type} (vis : visitor) (w : σ) (c : List GuardCall)
    (f : visitor → σ → Run σ) :
    Run.andThen { vis := vis, w := w, err := none, calls := c } f =
      { f vis w with calls := c ++ (f vis w).calls } := rfl

theorem andThen_err {σ : Type} (vis : visitor) (w : σ) (c : List GuardCall) (e : String)
    (f : visitor → σ → Run σ) :
    Run.andThen { vis := vis, w := w, err := some e, calls := c } f =
      { vis := vis, w := w, err := some e, calls := c } := rfl

theorem visitMapElementsLoop_faithful {σ : Type} {W : Writer σ} {emb : σ → GoString → σ}
    (hW : Faithful W emb) (env : Env) (v : Value) (st : RType) (isI : Bool) (al : Int) :
    ∀ (keys : List mapKey) (vis : visitor) (s : σ),
      visitMapElementsLoop env W v st isI al keys vis s =
        { vis := (elementsLoopOut env v st isI al keys vis).vis
          w := emb s (elementsLoopOut env v st isI al keys vis).text
          err := (elementsLoopOut env v st isI al keys vis).err
          calls := [] }
  | [], vis, s => by simp [visitMapElementsLoop, elementsLoopOut, Run.ok, hW.emb_nil]
  | mk :: rest, vis, s => by
    unfold visitMapElementsLoop elementsLoopOut
    cases hmi : v.Value.MapIndex env.heap mk.Value with
    | error e => simp [Run.panic, hW.emb_nil]
    | ok mv0 =>
      simp only []
      cases hun : unwrap isI mv0 with
      | error e => simp [Run.panic, hW.emb_nil]
      | ok mv =>
        simp only [MustWriteString_faithful hW, andThen_ok]
        cases hrep : Repeat (str " ") (al - mk.Width) with
        | error e => simp [Run.panic, hW.emb_append]
        | ok pad =>
          simp only [MustWriteString_faithful hW, andThen_ok]
          cases hty : mv.Type with
          | error e => simp [Run.panic, hW.emb_append]
          | ok typ =>
            simp only [visit_faithful hW]
            cases herr : (env.visit vis (childValue v mv typ st isI)).err with
            | some e => simp [andThen_err, hW.emb_append]
            | none =>
              simp only [andThen_ok, MustWriteString_faithful hW]
              rw [visitMapElementsLoop_faithful hW env v st isI al rest]
              simp [hW.emb_append]


/-! ## Every statement of `map.go` leaves the visitor alone -/

theorem andThen_quiet {σ : Type} {r : Run σ} {f : visitor → σ → Run σ} {vis : visitor}
    (hr : r.vis = vis ∧ r.calls = [])
    (hf : ∀ w, (f vis w).vis = vis ∧ (f vis w).calls = []) :
    (r.andThen f).vis = vis ∧ (r.andThen f).calls = [] := by
  unfold Run.andThen
  cases r.err with
  | some e => exact hr
  | none =>
    simp only []
    rw [hr.1, hr.2]
    exact ⟨(hf r.w).1, by simp [(hf r.w).2]⟩

theorem MustWriteString_quiet {σ : Type} (W : Writer σ) (vis : visitor) (w : σ) (p : GoString) :
    (MustWriteString W vis w p).vis = vis ∧ (MustWriteString W vis w p).calls = [] :=
  ⟨rfl, rfl⟩

theorem visit_quiet {σ : Type} {env : Env} (hb : Balanced env) (W : Writer σ) (vis : visitor)
    (w : σ) (v : Value) :
    (visitor.visit env W vis w v).vis = vis ∧ (visitor.visit env W vis w v).calls = [] := by
  unfold visitor.visit
  simp only []
  split <;> exact ⟨hb vis v, rfl⟩

theorem formatMapKeysLoop_vis {env : Env} (hb : Balanced env) (v : Value) (st : RType)
    (isI : Bool) : ∀ (mks : List RValue) (s : KeysRun),
      (formatMapKeysLoop env v st isI mks s).vis = s.vis
  | [], s => rfl
  | mk :: rest, s => by
    unfold formatMapKeysLoop
    split
    · rfl
    · rename_i mk2 _
      split
      · rfl
      · rename_i typ _
        have hq := visit_quiet hb Builder s.vis [] (childValue v mk2 typ st isI)
        simp only []
        split
        · exact hq.1
        · rw [formatMapKeysLoop_vis hb v st isI rest]
          exact hq.1

theorem formatMapKeys_vis {env : Env} (hb : Balanced env) (vis : visitor) (v : Value) :
    (vis.formatMapKeys env v).vis = vis := by
  unfold visitor.formatMapKeys
  simp only []
  split
  · rfl
  · split
    · rfl
    · split
      · rfl
      · rename_i mks _
        split
        · rw [formatMapKeysLoop_vis hb]
        · simp only []
          rw [formatMapKeysLoop_vis hb]

theorem visitMapElementsLoop_quiet {σ : Type} {env : Env} (hb : Balanced env) (W : Writer σ)
    (v : Value) (st : RType) (isI : Bool) (al : Int) :
    ∀ (keys : List mapKey) (vis : visitor) (w : σ),
      (visitMapElementsLoop env W v st isI al keys vis w).vis = vis ∧
        (visitMapElementsLoop env W v st isI al keys vis w).calls = []
  | [], vis, w => ⟨rfl, rfl⟩
  | mk :: rest, vis, w => by
    unfold visitMapElementsLoop
    split
    · exact ⟨rfl, rfl⟩
    · split
      · exact ⟨rfl, rfl⟩
      · refine andThen_quiet (MustWriteString_quiet W vis w _) (fun w1 => ?_)
        refine andThen_quiet (MustWriteString_quiet W vis w1 _) (fun w2 => ?_)
        split
        · exact ⟨rfl, rfl⟩
        · refine andThen_quiet (MustWriteString_quiet W vis w2 _) (fun w3 => ?_)
          split
          · exact ⟨rfl, rfl⟩
          · refine andThen_quiet (visit_quiet hb W vis w3 _) (fun w4 => ?_)
            refine andThen_quiet (MustWriteString_quiet W vis w4 _) (fun w5 => ?_)
            exact visitMapElementsLoop_quiet hb W v st isI al rest vis w5

theorem visitMapElements_quiet {σ : Type} {env : Env} (hb : Balanced env) (W : Writer σ)
    (vis : visitor) (w : σ) (v : Value) :
    (vis.visitMapElements env W w v).vis = vis ∧ (vis.visitMapElements env W w v).calls = [] := by
  unfold visitor.visitMapElements
  split
  · exact ⟨rfl, rfl⟩
  · split
    · exact ⟨rfl, rfl⟩
    · simp only []
      split
      · exact ⟨formatMapKeys_vis hb vis v, rfl⟩
      · rw [formatMapKeys_vis hb vis v]
        exact visitMapElementsLoop_quiet hb W v _ _ _ _ vis w

theorem visitMapBody_quiet {σ : Type} {env : Env} (hb : Balanced env) (W : Writer σ)
    (vis : visitor) (w : σ) (v : Value) :
    (visitMapBody env W vis w v).vis = vis ∧ (visitMapBody env W vis w v).calls = [] := by
  unfold visitMapBody
  refine andThen_quiet ?_ (fun w1 => ?_)
  · split
    · exact MustWriteString_quiet W vis w _
    · exact ⟨rfl, rfl⟩
  · split
    · exact ⟨rfl, rfl⟩
    · split
      · exact MustWriteString_quiet W vis w1 _
      · refine andThen_quiet (MustWriteString_quiet W vis w1 _) (fun w2 => ?_)
        simp only []
        refine andThen_quiet ?_ (fun w3 => MustWriteString_quiet W vis w3 _)
        exact visitMapElements_quiet hb (NewIndenter W vis.indent) vis (w2, false) v


/-! ## `formatMapKeys` when every key renders -/

theorem typeOr_of_toBool {x : RValue} (dflt : RType) (h : x.Type.toBool = true) :
    x.Type = .ok (typeOr dflt x) := by
  unfold typeOr
  cases hx : x.Type with
  | error e => rw [hx] at h; simp [Except.toBool] at h
  | ok t => rfl

theorem unwrapOr_of_toBool {isI : Bool} {x : RValue} (h : (unwrap isI x).toBool = true) :
    unwrap isI x = .ok (unwrapOr isI x) := by
  unfold unwrapOr
  cases hx : unwrap isI x with
  | error e => rw [hx] at h; simp [Except.toBool] at h
  | ok t => rfl

theorem visit_Builder (env : Env) (vis : visitor) (b : GoString) (v : Value) :
    visitor.visit env Builder vis b v =
      { vis := (env.visit vis v).vis, w := b ++ (env.visit vis v).text,
        err := (env.visit vis v).err, calls := [] } :=
  visit_faithful Builder_faithful env vis b v

theorem formatMapKeysLoop_keys {env : Env} (hb : Balanced env) (v : Value) (kt : RType) :
    ∀ (mks : List RValue) (s : KeysRun), s.err = none →
      (∀ k ∈ mks, KeyRenders env s.vis v kt k) →
      (formatMapKeysLoop env v kt (decide (kt.Kind = Kind.Interface)) mks s).err = none ∧
        (formatMapKeysLoop env v kt (decide (kt.Kind = Kind.Interface)) mks s).keys =
          s.keys ++ mks.map (keyOf env s.vis v kt)
  | [], s, hs, _ => by simp [formatMapKeysLoop, hs]
  | mk :: rest, s, hs, hk => by
    have hmk := hk mk (List.mem_cons_self _ _)
    have hun := unwrapOr_of_toBool hmk.1
    have hty := typeOr_of_toBool kt hmk.2.1
    have herr : (env.visit s.vis (keyValue v kt mk)).err = none := hmk.2.2
    have hvis : (env.visit s.vis (keyValue v kt mk)).vis = s.vis := hb _ _
    unfold formatMapKeysLoop
    simp only [hun, hty, visit_Builder]
    have hkv : childValue v (unwrapOr (decide (kt.Kind = Kind.Interface)) mk)
        (typeOr kt (unwrapOr (decide (kt.Kind = Kind.Interface)) mk)) kt
        (decide (kt.Kind = Kind.Interface)) = keyValue v kt mk := rfl
    rw [hkv]
    simp only [herr, hvis, List.nil_append]
    have ih := formatMapKeysLoop_keys hb v kt rest
      { (if (widths (env.visit s.vis (keyValue v kt mk)).text).1 > s.alignment then
          { s with
            alignment := (widths (env.visit s.vis (keyValue v kt mk)).text).1
            alignToLastLine := decide ((widths (env.visit s.vis (keyValue v kt mk)).text).1 =
              (widths (env.visit s.vis (keyValue v kt mk)).text).2) }
        else s) with
        vis := s.vis
        keys := s.keys ++ [{ Value := unwrapOr (decide (kt.Kind = Kind.Interface)) mk,
                             String := (env.visit s.vis (keyValue v kt mk)).text,
                             Width := (widths (env.visit s.vis (keyValue v kt mk)).text).2 }] }
      (by simp only []; split <;> exact hs)
      (fun k hkm => hk k (List.mem_cons_of_mem _ hkm))
    refine ⟨ih.1, ?_⟩
    rw [ih.2]
    simp [keyOf]

theorem formatMapKeys_keys {env : Env} (hb : Balanced env) (vis : visitor) (v : Value)
    (t kt et : RType) (p : Nat) (hv : v.Value = .map t p)
    (hd : v.DynamicType = some (.map kt et))
    (hk : ∀ k ∈ (env.heap p).map Prod.fst, KeyRenders env vis v kt k) :
    (vis.formatMapKeys env v).err = none ∧
      (vis.formatMapKeys env v).keys =
        sortSlice mapKey.less (((env.heap p).map Prod.fst).map (keyOf env vis v kt)) := by
  have h := formatMapKeysLoop_keys hb v kt ((env.heap p).map Prod.fst)
    { vis := vis, keys := [], alignment := 0, alignToLastLine := false, err := none } rfl hk
  unfold visitor.formatMapKeys
  simp only [hd, hv, RType.Key, RValue.MapKeys, h.1, h.2, List.nil_append]
  exact ⟨trivial, trivial⟩


theorem visitMapElements_faithful {σ : Type} {W : Writer σ} {emb : σ → GoString → σ}
    (hW : Faithful W emb) (env : Env) (vis : visitor) (s : σ) (v : Value) :
    vis.visitMapElements env W s v =
      { vis := (elementsOut env vis v).vis, w := emb s (elementsOut env vis v).text,
        err := (elementsOut env vis v).err, calls := [] } := by
  unfold visitor.visitMapElements elementsOut
  cases v.DynamicType with
  | none => simp [Run.panic, hW.emb_nil]
  | some dt =>
    simp only []
    cases dt.Elem with
    | error e => simp [Run.panic, hW.emb_nil]
    | ok st =>
      simp only []
      cases hkr : (vis.formatMapKeys env v).err with
      | some e => simp [Run.panic, hW.emb_nil]
      | none => simp only []; exact visitMapElementsLoop_faithful hW env v st _ _ _ _ _

theorem elementsLoopOut_text {env : Env} (hb : Balanced env) (v : Value) (et : RType) (al : Int) :
    ∀ (keys : List mapKey) (vis : visitor),
      (elementsLoopOut env v et (decide (et.Kind = Kind.Interface)) al keys vis).err = none →
      (elementsLoopOut env v et (decide (et.Kind = Kind.Interface)) al keys vis).text =
        (keys.map (entryText env vis v et al)).flatten
  | [], vis, _ => by simp [elementsLoopOut]
  | mk :: rest, vis, h => by
    unfold elementsLoopOut at h ⊢
    cases hmi : v.Value.MapIndex env.heap mk.Value with
    | error e => simp [hmi] at h
    | ok mv0 =>
      simp only [hmi] at h ⊢
      cases hun : unwrap (decide (et.Kind = Kind.Interface)) mv0 with
      | error e => simp [hun] at h
      | ok mv =>
        simp only [hun] at h ⊢
        cases hrep : Repeat (str " ") (al - mk.Width) with
        | error e => simp [hrep] at h
        | ok pad =>
          simp only [hrep] at h ⊢
          cases hty : mv.Type with
          | error e => simp [hty] at h
          | ok typ =>
            simp only [hty] at h ⊢
            cases herr : (env.visit vis (childValue v mv typ et
                (decide (et.Kind = Kind.Interface)))).err with
            | some e => simp [herr] at h
            | none =>
              simp only [herr, hb vis] at h ⊢
              rw [elementsLoopOut_text hb v et al rest vis h]
              have hpad : pad = spaces (al - mk.Width) := by
                unfold Repeat at hrep
                split at hrep
                · cases hrep
                · injection hrep with hrep
                  exact hrep.symm
              have hev : elemValue env v et mk.Value =
                  childValue v mv typ et (decide (et.Kind = Kind.Interface)) := by
                simp [elemValue, hmi, typeOr, unwrapOr, hun, hty]
              simp [entryText, hev, hpad]

theorem visitMapBody_Builder (env : Env) (vis : visitor) (w : GoString) (v : Value)
    (t : RType) (p : Nat) (hv : v.Value = .map t p) :
    visitMapBody env Builder vis w v =
      if (env.heap p).length = 0 then
        { vis := vis
          w := w ++ (if env.IsAmbiguousType v then env.TypeName v else []) ++ str "\x7b\x7d"
          err := none, calls := [] }
      else
        { vis := (elementsOut env vis v).vis
          w := w ++ (if env.IsAmbiguousType v then env.TypeName v else []) ++ str "\x7b\n" ++
            indentText (indentOf vis.indent) false (elementsOut env vis v).text ++
            (if (elementsOut env vis v).err = none then str "\x7d" else [])
          err := (elementsOut env vis v).err, calls := [] } := by
  unfold visitMapBody
  have h1 : (if env.IsAmbiguousType v = true then MustWriteString Builder vis w (env.TypeName v)
      else Run.ok vis w) =
      { vis := vis, w := w ++ (if env.IsAmbiguousType v then env.TypeName v else []),
        err := none, calls := [] } := by
    split <;> simp [MustWriteString, Builder, Run.ok]
  rw [h1, andThen_ok]
  simp only [hv, RValue.Len]
  by_cases hlen : (env.heap p).length = 0
  · simp [hlen, MustWriteString_faithful Builder_faithful]
  · simp only [hlen, if_false, MustWriteString_faithful Builder_faithful, andThen_ok,
      visitMapElements_faithful (NewIndenter_faithful vis.indent), indentEmb]
    cases herr : (elementsOut env vis v).err with
    | some e => simp [andThen_err, hv, indentText]
    | none => simp [andThen_ok, MustWriteString_faithful Builder_faithful, hv, indentText]

theorem visitMap_not_visiting {σ : Type} (env : Env) (W : Writer σ) (vis : visitor) (w : σ)
    (v : Value) (hg : v.Value.Pointer ∉ vis.recursionSet) :
    vis.visitMap env W w v =
      (({ visitMapBody env W { vis with recursionSet := v.Value.Pointer :: vis.recursionSet } w v
          with calls := [GuardCall.enter v.Value.Pointer] ++
            (visitMapBody env W
              { vis with recursionSet := v.Value.Pointer :: vis.recursionSet } w v).calls } :
        Run σ).leave v) := by
  unfold visitor.visitMap visitor.enter
  simp [hg]

theorem visitMap_visiting {σ : Type} (env : Env) (W : Writer σ) (vis : visitor) (w : σ)
    (v : Value) (hg : v.Value.Pointer ∈ vis.recursionSet) :
    vis.visitMap env W w v =
      { MustWriteString W vis w
          (env.TypeName v ++ str "(" ++ vis.recursionMarker ++ str ")") with
        calls := [GuardCall.enter v.Value.Pointer] } := by
  unfold visitor.visitMap visitor.enter
  simp only [hg, if_true]
  split <;> rfl

theorem leave_push (vis : visitor) (v : Value) :
    visitor.leave { vis with recursionSet := v.Value.Pointer :: vis.recursionSet } v = vis := by
  simp [visitor.leave]

/-! ## Two surroundings that render alike -/

theorem formatMapKeysLoop_congr {env1 env2 : Env} (I : visitor → Prop)
    (h : ∀ vis x, I vis → env1.visit vis x = env2.visit vis x ∧ I (env1.visit vis x).vis)
    (v : Value) (st : RType) (isI : Bool) :
    ∀ (mks : List RValue) (s : KeysRun), I s.vis →
      formatMapKeysLoop env1 v st isI mks s = formatMapKeysLoop env2 v st isI mks s ∧
        I (formatMapKeysLoop env1 v st isI mks s).vis
  | [], s, hI => ⟨rfl, hI⟩
  | mk :: rest, s, hI => by
    unfold formatMapKeysLoop
    simp only [visit_Builder]
    cases hun : unwrap isI mk with
    | error e => exact ⟨rfl, hI⟩
    | ok mk2 =>
      simp only []
      cases hty : mk2.Type with
      | error e => exact ⟨rfl, hI⟩
      | ok typ =>
        obtain ⟨heq, hI2⟩ := h s.vis (childValue v mk2 typ st isI) hI
        simp only []
        rw [← heq]
        cases herr : (env1.visit s.vis (childValue v mk2 typ st isI)).err with
        | some e => exact ⟨rfl, hI2⟩
        | none =>
          simp only []
          exact formatMapKeysLoop_congr I h v st isI rest _ hI2

theorem formatMapKeys_congr {env1 env2 : Env} (I : visitor → Prop)
    (h : ∀ vis x, I vis → env1.visit vis x = env2.visit vis x ∧ I (env1.visit vis x).vis)
    (hheap : env1.heap = env2.heap) (vis : visitor) (v : Value) (hI : I vis) :
    vis.formatMapKeys env1 v = vis.formatMapKeys env2 v ∧ I (vis.formatMapKeys env1 v).vis := by
  unfold visitor.formatMapKeys
  rw [hheap]
  cases v.DynamicType with
  | none => exact ⟨rfl, hI⟩
  | some dt =>
    simp only []
    cases dt.Key with
    | error e => exact ⟨rfl, hI⟩
    | ok st =>
      simp only []
      cases v.Value.MapKeys env2.heap with
      | error e => exact ⟨rfl, hI⟩
      | ok mks =>
        simp only []
        obtain ⟨heq, hI2⟩ := formatMapKeysLoop_congr I h v st
          (decide (st.Kind = Kind.Interface)) mks
          { vis := vis, keys := [], alignment := 0, alignToLastLine := false, err := none } hI
        rw [← heq]
        refine ⟨rfl, ?_⟩
        split
        · exact hI2
        · exact hI2

theorem elementsLoopOut_congr {env1 env2 : Env} (I : visitor → Prop)
    (h : ∀ vis x, I vis → env1.visit vis x = env2.visit vis x ∧ I (env1.visit vis x).vis)
    (hheap : env1.heap = env2.heap) (v : Value) (st : RType) (isI : Bool) (al : Int) :
    ∀ (keys : List mapKey) (vis : visitor), I vis →
      elementsLoopOut env1 v st isI al keys vis = elementsLoopOut env2 v st isI al keys vis
  | [], vis, _ => rfl
  | mk :: rest, vis, hI => by
    unfold elementsLoopOut
    rw [hheap]
    cases v.Value.MapIndex env2.heap mk.Value with
    | error e => rfl
    | ok mv0 =>
      simp only []
      cases unwrap isI mv0 with
      | error e => rfl
      | ok mv =>
        simp only []
        cases Repeat (str " ") (al - mk.Width) with
        | error e => rfl
        | ok pad =>
          simp only []
          cases mv.Type with
          | error e => rfl
          | ok typ =>
            simp only []
            obtain ⟨heq, hI2⟩ := h vis (childValue v mv typ st isI) hI
            rw [← heq]
            cases (env1.visit vis (childValue v mv typ st isI)).err with
            | some e => rfl
            | none =>
              simp only []
              rw [elementsLoopOut_congr I h hheap v st isI al rest _ hI2]

theorem elementsOut_congr {env1 env2 : Env} (I : visitor → Prop)
    (h : ∀ vis x, I vis → env1.visit vis x = env2.visit vis x ∧ I (env1.visit vis x).vis)
    (hheap : env1.heap = env2.heap) (vis : visitor) (v : Value) (hI : I vis) :
    elementsOut env1 vis v = elementsOut env2 vis v := by
  unfold elementsOut
  obtain ⟨heq, hI2⟩ := formatMapKeys_congr I h hheap vis v hI
  rw [← heq]
  cases v.DynamicType with
  | none => rfl
  | some dt =>
    simp only []
    cases dt.Elem with
    | error e => rfl
    | ok st =>
      simp only []
      cases (vis.formatMapKeys env1 v).err with
      | some e => rfl
      | none => exact elementsLoopOut_congr I h hheap v st _ _ _ _ hI2


/-! ## `visitMap` -/

theorem visitMap_calls_vis {σ : Type} (env : Env) (hb : Balanced env) (W : Writer σ)
    (vis : visitor) (w : σ) (v : Value) :
    (vis.visitMap env W w v).calls =
        GuardCall.enter v.Value.Pointer ::
          (if (vis.enter env W w v).2 then [] else [GuardCall.leave v.Value.Pointer]) ∧
      (vis.visitMap env W w v).vis = vis := by
  by_cases hg : v.Value.Pointer ∈ vis.recursionSet
  · rw [visitMap_visiting env W vis w v hg]
    simp [visitor.enter, hg, MustWriteString]
  · rw [visitMap_not_visiting env W vis w v hg]
    have hq := visitMapBody_quiet hb W
      { vis with recursionSet := v.Value.Pointer :: vis.recursionSet } w v
    simp only [Run.leave, hq.1, hq.2, leave_push]
    simp [visitor.enter, hg]

theorem enter_true_iff {σ : Type} (env : Env) (W : Writer σ) (vis : visitor) (w : σ)
    (v : Value) : (vis.enter env W w v).2 = true ↔ v.Value.Pointer ∈ vis.recursionSet := by
  unfold visitor.enter
  by_cases hg : v.Value.Pointer ∈ vis.recursionSet <;> simp [hg]

theorem visitMap_Builder (env : Env) (vis : visitor) (w : GoString) (v : Value)
    (t : RType) (p : Nat) (hv : v.Value = .map t p) (hg : p ∉ vis.recursionSet) :
    (vis.visitMap env Builder w v).w =
        (visitMapBody env Builder { vis with recursionSet := p :: vis.recursionSet } w v).w ∧
      (vis.visitMap env Builder w v).err =
        (visitMapBody env Builder { vis with recursionSet := p :: vis.recursionSet } w v).err := by
  have hp : v.Value.Pointer = p := by simp [hv, RValue.Pointer]
  rw [visitMap_not_visiting env Builder vis w v (by rw [hp]; exact hg), hp]
  exact ⟨rfl, rfl⟩

/-! ## The dispatch on a memory with one map -/

theorem dispatch_map (heap : Heap) (n : Nat) (vis : visitor) (x : Value) (t : RType) (q : Nat)
    (hx : x.Value = .map t q) :
    dispatch heap (n + 1) vis x =
      { text := (vis.visitMap { leafEnv heap with visit := dispatch heap n } Builder [] x).w
        err := (vis.visitMap { leafEnv heap with visit := dispatch heap n } Builder [] x).err
        vis := (vis.visitMap { leafEnv heap with visit := dispatch heap n } Builder [] x).vis } := by
  rw [dispatch]
  simp only [hx]

theorem dispatch_inner (es : List (RValue × RValue)) (n m : Nat) (vis : visitor) (x : Value)
    (hI : 1 ∈ vis.recursionSet) :
    dispatch (heapOf es) (n + 1) vis x = dispatch (heapOf es) (m + 1) vis x ∧
      (dispatch (heapOf es) (n + 1) vis x).vis = vis := by
  cases hx : x.Value with
  | map t q =>
    have hp : x.Value.Pointer = q := by simp [hx, RValue.Pointer]
    rw [dispatch_map _ n _ _ t q hx, dispatch_map _ m _ _ t q hx]
    by_cases hq : q ∈ vis.recursionSet
    · have hq2 : x.Value.Pointer ∈ vis.recursionSet := by rw [hp]; exact hq
      rw [visitMap_visiting _ Builder vis [] x hq2, visitMap_visiting _ Builder vis [] x hq2]
      exact ⟨rfl, rfl⟩
    · have hq2 : x.Value.Pointer ∉ vis.recursionSet := by rw [hp]; exact hq
      have hq1 : q ≠ 1 := fun h => hq (h ▸ hI)
      rw [visitMap_not_visiting _ Builder vis [] x hq2,
        visitMap_not_visiting _ Builder vis [] x hq2,
        visitMapBody_Builder _ _ _ x t q hx, visitMapBody_Builder _ _ _ x t q hx]
      simp [heapOf, hq1, leafEnv, Run.leave, visitor.leave, hp]
  | invalid => simp [dispatch, hx]
  | basic t d => simp [dispatch, hx]
  | nilIface t => simp [dispatch, hx]
  | iface t h => simp [dispatch, hx]

theorem dispatch_fuel (es : List (RValue × RValue)) (vis : visitor) (root : Value) (t : RType)
    (hroot : root.Value = .map t 1) (n m : Nat) :
    dispatch (heapOf es) (n + 1 + 1) vis root = dispatch (heapOf es) (m + 1 + 1) vis root := by
  have hp : root.Value.Pointer = 1 := by simp [hroot, RValue.Pointer]
  rw [dispatch_map _ (n + 1) _ _ t 1 hroot, dispatch_map _ (m + 1) _ _ t 1 hroot]
  by_cases hg : 1 ∈ vis.recursionSet
  · have hg2 : root.Value.Pointer ∈ vis.recursionSet := by rw [hp]; exact hg
    rw [visitMap_visiting _ Builder vis [] root hg2, visitMap_visiting _ Builder vis [] root hg2]
  · have hg2 : root.Value.Pointer ∉ vis.recursionSet := by rw [hp]; exact hg
    have hc := @elementsOut_congr
      { leafEnv (heapOf es) with visit := dispatch (heapOf es) (n + 1) }
      { leafEnv (heapOf es) with visit := dispatch (heapOf es) (m + 1) }
      (fun vis => 1 ∈ vis.recursionSet)
      (fun vis x hI => by
        have h := dispatch_inner es n m vis x hI
        exact ⟨h.1, by rw [h.2]; exact hI⟩)
      rfl { vis with recursionSet := 1 :: vis.recursionSet } root (by simp)
    rw [visitMap_not_visiting _ Builder vis [] root hg2,
      visitMap_not_visiting _ Builder vis [] root hg2,
      visitMapBody_Builder _ _ _ root t 1 hroot, visitMapBody_Builder _ _ _ root t 1 hroot, hp, hc]

theorem dispatch_balanced (heap : Heap) : ∀ (n : Nat) (vis : visitor) (v : Value),
    (dispatch heap n vis v).vis = vis
  | 0, _, _ => rfl
  | n + 1, vis, v => by
    cases hx : v.Value with
    | map t q =>
      rw [dispatch_map heap n vis v t q hx]
      exact (visitMap_calls_vis { leafEnv heap with visit := dispatch heap n }
        (fun vis2 v2 => dispatch_balanced heap n vis2 v2) Builder vis [] v).2
    | invalid => simp [dispatch, hx]
    | basic t d => simp [dispatch, hx]
    | nilIface t => simp [dispatch, hx]
    | iface t h => simp [dispatch, hx]

/-! ## The alignment -/

theorem longestFrom_ge (a : Int) : ∀ ws : List (Int × Int), a ≤ longestFrom a ws
  | [] => Int.le_refl a
  | w :: ws => by
    unfold longestFrom
    by_cases hw : w.1 > a
    · have h := longestFrom_ge w.1 ws
      simp only [hw, if_true]
      omega
    · have h := longestFrom_ge a ws
      simp only [hw, if_false]
      exact h

theorem foldl_alignStep (ws : List (Int × Int)) : ∀ (a : Int) (f : Bool),
    ws.foldl alignStep (a, f) =
      (longestFrom a ws, if longestFrom a ws > a then firstAligns (longestFrom a ws) ws else f) := by
  induction ws with
  | nil => intro a f; simp [longestFrom]
  | cons w ws ih =>
    intro a f
    simp only [List.foldl_cons, alignStep, longestFrom, firstAligns]
    by_cases hw : w.1 > a
    · simp only [hw, if_true]
      rw [ih]
      have hge := longestFrom_ge w.1 ws
      by_cases hM : longestFrom w.1 ws > w.1
      · have h1 : longestFrom w.1 ws > a := by omega
        have h2 : ¬ w.1 = longestFrom w.1 ws := by omega
        simp [hM, h1, h2]
      · have h1 : longestFrom w.1 ws = w.1 := by omega
        simp [h1, hw]
    · simp only [hw, if_false]
      rw [ih]
      have hge := longestFrom_ge a ws
      by_cases hM : longestFrom a ws > a
      · have h2 : ¬ w.1 = longestFrom a ws := by omega
        simp [hM, h2]
      · simp [hM]

theorem formatMapKeysLoop_align {env : Env} (hb : Balanced env) (v : Value) (kt : RType) :
    ∀ (mks : List RValue) (s : KeysRun), s.err = none →
      (∀ k ∈ mks, KeyRenders env s.vis v kt k) →
      ((formatMapKeysLoop env v kt (decide (kt.Kind = Kind.Interface)) mks s).alignment,
        (formatMapKeysLoop env v kt (decide (kt.Kind = Kind.Interface)) mks s).alignToLastLine) =
        (keyWidths env s.vis v kt mks).foldl alignStep (s.alignment, s.alignToLastLine)
  | [], s, _, _ => by simp [formatMapKeysLoop, keyWidths]
  | mk :: rest, s, hs, hk => by
    have hmk := hk mk (List.mem_cons_self _ _)
    have hun := unwrapOr_of_toBool hmk.1
    have hty := typeOr_of_toBool kt hmk.2.1
    have herr : (env.visit s.vis (keyValue v kt mk)).err = none := hmk.2.2
    have hvis : (env.visit s.vis (keyValue v kt mk)).vis = s.vis := hb _ _
    unfold formatMapKeysLoop
    simp only [hun, hty, visit_Builder]
    have hkv : childValue v (unwrapOr (decide (kt.Kind = Kind.Interface)) mk)
        (typeOr kt (unwrapOr (decide (kt.Kind = Kind.Interface)) mk)) kt
        (decide (kt.Kind = Kind.Interface)) = keyValue v kt mk := rfl
    rw [hkv]
    simp only [herr, hvis, List.nil_append]
    have ih := formatMapKeysLoop_align hb v kt rest
      { (if (widths (env.visit s.vis (keyValue v kt mk)).text).1 > s.alignment then
          { s with
            alignment := (widths (env.visit s.vis (keyValue v kt mk)).text).1
            alignToLastLine := decide ((widths (env.visit s.vis (keyValue v kt mk)).text).1 =
              (widths (env.visit s.vis (keyValue v kt mk)).text).2) }
        else s) with
        vis := s.vis
        keys := s.keys ++ [{ Value := unwrapOr (decide (kt.Kind = Kind.Interface)) mk,
                             String := (env.visit s.vis (keyValue v kt mk)).text,
                             Width := (widths (env.visit s.vis (keyValue v kt mk)).text).2 }] }
      (by simp only []; split <;> exact hs)
      (fun k hkm => hk k (List.mem_cons_of_mem _ hkm))
    rw [ih]
    simp only [keyWidths, List.map_cons, List.foldl_cons, alignStep, keyOf]
    split <;> rfl

/-- The alignment `formatMapKeys` returns for a map whose keys all render:
with `m` the length of the longest line of all the renderings, it is `m` if
`m ≥ 1` and the first enumerated key with a line that long has it as its last
line, and `m - 1` otherwise. -/
theorem formatMapKeys_alignment {env : Env} (hb : Balanced env) (vis : visitor) (v : Value)
    (t kt et : RType) (p : Nat) (hv : v.Value = .map t p)
    (hd : v.DynamicType = some (.map kt et))
    (hk : ∀ k ∈ (env.heap p).map Prod.fst, KeyRenders env vis v kt k) :
    (vis.formatMapKeys env v).alignment =
      if longestFrom 0 (keyWidths env vis v kt ((env.heap p).map Prod.fst)) > 0 ∧
          firstAligns (longestFrom 0 (keyWidths env vis v kt ((env.heap p).map Prod.fst)))
            (keyWidths env vis v kt ((env.heap p).map Prod.fst)) = true
        then longestFrom 0 (keyWidths env vis v kt ((env.heap p).map Prod.fst))
        else longestFrom 0 (keyWidths env vis v kt ((env.heap p).map Prod.fst)) - 1 := by
  have h := formatMapKeysLoop_keys hb v kt ((env.heap p).map Prod.fst)
    { vis := vis, keys := [], alignment := 0, alignToLastLine := false, err := none } rfl hk
  have ha := formatMapKeysLoop_align hb v kt ((env.heap p).map Prod.fst)
    { vis := vis, keys := [], alignment := 0, alignToLastLine := false, err := none } rfl hk
  rw [foldl_alignStep] at ha
  simp only [Prod.mk.injEq] at ha
  unfold visitor.formatMapKeys
  simp only [hd, hv, RType.Key, RValue.MapKeys, h.1, ha.1, ha.2]
  by_cases hM : longestFrom 0 (keyWidths env vis v kt ((env.heap p).map Prod.fst)) > 0
  · cases hF : firstAligns (longestFrom 0 (keyWidths env vis v kt ((env.heap p).map Prod.fst)))
        (keyWidths env vis v kt ((env.heap p).map Prod.fst)) <;> simp [hM, hF]
  · simp [hM]

theorem widths_single_line (s : GoString) (h : newline ∉ s) :
    widths s = ((s.length : Int), (s.length : Int)) := by
  unfold widths widthsLoop
  rcases IndexByte_spec newline s with ⟨h1, _⟩ | ⟨l, r, h1, _, _⟩
  · simp only [h1, if_true]
    by_cases hl : (s.length : Int) > 0
    · simp [hl]
    · have : (s.length : Int) = 0 := by omega
      simp [this]
  · exact absurd (by rw [h1]; simp) h

theorem longestFrom_mem (ws : List (Int × Int)) : ∀ a : Int, longestFrom a ws > a →
    ∃ w ∈ ws, w.1 = longestFrom a ws := by
  induction ws with
  | nil => intro a h; simp [longestFrom] at h
  | cons w ws ih =>
    intro a h
    unfold longestFrom at h ⊢
    by_cases hw : w.1 > a
    · simp only [hw, if_true] at h ⊢
      by_cases hM : longestFrom w.1 ws > w.1
      · obtain ⟨x, hx, hx2⟩ := ih w.1 hM
        exact ⟨x, List.mem_cons_of_mem _ hx, hx2⟩
      · have hge := longestFrom_ge w.1 ws
        exact ⟨w, List.mem_cons_self _ _, by omega⟩
    · simp only [hw, if_false] at h ⊢
      obtain ⟨x, hx, hx2⟩ := ih a h
      exact ⟨x, List.mem_cons_of_mem _ hx, hx2⟩

theorem firstAligns_of_all (m : Int) : ∀ ws : List (Int × Int), (∀ w ∈ ws, w.1 = w.2) →
    (∃ w ∈ ws, w.1 = m) → firstAligns m ws = true
  | [], _, h => by simp at h
  | w :: ws, hall, hex => by
    unfold firstAligns
    by_cases hw : w.1 = m
    · simp [hw, ← hall w (List.mem_cons_self _ _)]
    · simp only [hw, if_false]
      refine firstAligns_of_all m ws (fun x hx => hall x (List.mem_cons_of_mem _ hx)) ?_
      obtain ⟨x, hx, hx2⟩ := hex
      rcases List.mem_cons.mp hx with rfl | hx
      · exact absurd hx2 hw
      · exact ⟨x, hx, hx2⟩

/-- The alignment `formatMapKeys` returns for a map whose keys all render as
single lines, one of them at least one byte long: the length of the longest
rendering. -/
theorem formatMapKeys_alignment_single_line {env : Env} (hb : Balanced env) (vis : visitor)
    (v : Value) (t kt et : RType) (p : Nat) (hv : v.Value = .map t p)
    (hd : v.DynamicType = some (.map kt et))
    (hk : ∀ k ∈ (env.heap p).map Prod.fst, KeyRenders env vis v kt k)
    (hline : ∀ k ∈ (env.heap p).map Prod.fst, newline ∉ (keyOf env vis v kt k).String)
    (hsome : ∃ k ∈ (env.heap p).map Prod.fst, (keyOf env vis v kt k).String ≠ []) :
    (vis.formatMapKeys env v).alignment =
        longestFrom 0 (keyWidths env vis v kt ((env.heap p).map Prod.fst)) ∧
      (∀ k ∈ (env.heap p).map Prod.fst,
        ((keyOf env vis v kt k).String.length : Int) ≤ (vis.formatMapKeys env v).alignment) ∧
      ∃ k ∈ (env.heap p).map Prod.fst,
        ((keyOf env vis v kt k).String.length : Int) = (vis.formatMapKeys env v).alignment := by
  have hall : ∀ w ∈ keyWidths env vis v kt ((env.heap p).map Prod.fst), w.1 = w.2 := by
    intro w hw
    obtain ⟨k, hk1, rfl⟩ := List.mem_map.mp hw
    rw [widths_single_line _ (hline k hk1)]
  have hle : ∀ (ws : List (Int × Int)) (a : Int), ∀ w ∈ ws, w.1 ≤ longestFrom a ws := by
    intro ws
    induction ws with
    | nil => intro a w hw; simp at hw
    | cons x xs ih =>
      intro a w hw
      unfold longestFrom
      rcases List.mem_cons.mp hw with rfl | hw
      · by_cases hwa : w.1 > a
        · have := longestFrom_ge w.1 xs
          simp only [hwa, if_true]
          exact this
        · have := longestFrom_ge a xs
          simp only [hwa, if_false]
          omega
      · exact ih _ w hw
  have hmem : ∀ k ∈ (env.heap p).map Prod.fst, widths (keyOf env vis v kt k).String ∈
      keyWidths env vis v kt ((env.heap p).map Prod.fst) :=
    fun k hk1 => List.mem_map.mpr ⟨k, hk1, rfl⟩
  have hpos : longestFrom 0 (keyWidths env vis v kt ((env.heap p).map Prod.fst)) > 0 := by
    obtain ⟨k, hk1, hk2⟩ := hsome
    have h1 := hle _ 0 _ (hmem k hk1)
    rw [widths_single_line _ (hline k hk1)] at h1
    have h2 : (keyOf env vis v kt k).String.length ≠ 0 := fun h0 =>
      hk2 (List.eq_nil_of_length_eq_zero h0)
    simp only at h1
    omega
  have hfirst := firstAligns_of_all _ _ hall (longestFrom_mem _ 0 hpos)
  have ha := formatMapKeys_alignment hb vis v t kt et p hv hd hk
  rw [if_pos ⟨hpos, hfirst⟩] at ha
  refine ⟨ha, ?_, ?_⟩
  · intro k hk1
    rw [ha]
    have h1 := hle _ 0 _ (hmem k hk1)
    rw [widths_single_line _ (hline k hk1)] at h1
    exact h1
  · obtain ⟨w, hw, hw2⟩ := longestFrom_mem _ 0 hpos
    obtain ⟨k, hk1, rfl⟩ := List.mem_map.mp hw
    refine ⟨k, hk1, ?_⟩
    rw [ha, ← hw2, widths_single_line _ (hline k hk1)]

/-! ## Lengths, texts and braces -/

theorem formatMapKeysLoop_length (env : Env) (v : Value) (st : RType) (isI : Bool) :
    ∀ (mks : List RValue) (s : KeysRun),
      (formatMapKeysLoop env v st isI mks s).err = none →
      (formatMapKeysLoop env v st isI mks s).keys.length = s.keys.length + mks.length
  | [], s, _ => by simp [formatMapKeysLoop]
  | mk :: rest, s, h => by
    unfold formatMapKeysLoop at h ⊢
    cases hun : unwrap isI mk with
    | error e => simp [hun] at h
    | ok mk2 =>
      simp only [hun] at h ⊢
      cases hty : mk2.Type with
      | error e => simp [hty] at h
      | ok typ =>
        simp only [hty] at h ⊢
        cases herr : (visitor.visit env Builder s.vis []
            (childValue v mk2 typ st isI)).err with
        | some e => simp [herr] at h
        | none =>
          simp only [herr] at h ⊢
          rw [formatMapKeysLoop_length env v st isI rest _ h]
          simp only [List.length_append, List.length_cons, List.length_nil]
          omega

theorem formatMapKeys_length (env : Env) (vis : visitor) (v : Value) (t : RType) (p : Nat)
    (hv : v.Value = .map t p) (h : (vis.formatMapKeys env v).err = none) :
    (vis.formatMapKeys env v).keys.length = (env.heap p).length := by
  unfold visitor.formatMapKeys at h ⊢
  cases hdt : v.DynamicType with
  | none => simp [hdt] at h
  | some dt =>
    simp only [hdt] at h ⊢
    cases hk : dt.Key with
    | error e => simp [hk] at h
    | ok st =>
      simp only [hk, hv, RValue.MapKeys] at h ⊢
      cases hl : (formatMapKeysLoop env v st (decide (st.Kind = Kind.Interface))
          ((env.heap p).map Prod.fst)
          { vis := vis, keys := [], alignment := 0, alignToLastLine := false, err := none }).err with
      | some e => simp [hl] at h
      | none =>
        simp only [hl]
        rw [(sortSlice_perm _ _).length_eq, formatMapKeysLoop_length env v st _ _ _ hl]
        simp

theorem elementsOut_eq {env : Env} (hb : Balanced env) (vis : visitor) (v : Value)
    (kt et : RType) (hd : v.DynamicType = some (.map kt et))
    (h : (vis.formatMapKeys env v).err = none) :
    elementsOut env vis v =
      elementsLoopOut env v et (decide (et.Kind = Kind.Interface))
        (vis.formatMapKeys env v).alignment (vis.formatMapKeys env v).keys vis := by
  unfold elementsOut
  simp only [hd, RType.Elem, h, formatMapKeys_vis hb]

theorem elementsOut_err {env : Env} (vis : visitor) (v : Value)
    (kt et : RType) (hd : v.DynamicType = some (.map kt et))
    (h : (elementsOut env vis v).err = none) : (vis.formatMapKeys env v).err = none := by
  unfold elementsOut at h
  simp only [hd, RType.Elem] at h
  cases hk : (vis.formatMapKeys env v).err with
  | none => rfl
  | some e => simp [hk] at h

theorem str_open_brace : str "\x7b\n" = str "\x7b" ++ str "\n" := by decide

theorem str_braces : str "\x7b\x7d" = str "\x7b" ++ str "\x7d" := by decide

/-! ## `widths` and the lines of a string -/

theorem splitLines_ne_nil : ∀ s : GoString, splitLines s ≠ []
  | [] => by simp [splitLines]
  | c :: cs => by
    unfold splitLines
    split
    · simp
    · split <;> simp

theorem splitLines_single : ∀ s : GoString, newline ∉ s → splitLines s = [s]
  | [], _ => rfl
  | c :: cs, h => by
    have hc : c ≠ newline := fun e => h (by simp [e])
    have hcs : newline ∉ cs := fun e => h (List.mem_cons_of_mem _ e)
    simp [splitLines, hc, splitLines_single cs hcs]

theorem splitLines_append : ∀ (l r : GoString), newline ∉ l →
    splitLines (l ++ newline :: r) = l :: splitLines r
  | [], r, _ => by simp [splitLines]
  | c :: l, r, h => by
    have hc : c ≠ newline := fun e => h (by simp [e])
    have hl : newline ∉ l := fun e => h (List.mem_cons_of_mem _ e)
    simp [splitLines, hc, splitLines_append l r hl]

theorem lastLine_cons (l : GoString) : ∀ ls : List GoString, ls ≠ [] →
    lastLine (l :: ls) = lastLine ls
  | [], h => absurd rfl h
  | _ :: _, _ => rfl

theorem widthsLoop_lines : ∀ (fuel : Nat) (s : GoString) (m : Int), s.length < fuel →
    widthsLoop fuel s m =
      (if longestLine (splitLines s) > m then longestLine (splitLines s) else m,
        lastLine (splitLines s))
  | 0, _, _, h => absurd h (Nat.not_lt_zero _)
  | fuel + 1, s, m, h => by
    unfold widthsLoop
    rcases IndexByte_spec newline s with ⟨h1, h2⟩ | ⟨l, r, h1, h2, h3⟩
    · simp only [h1, if_true, splitLines_single s h2, longestLine, lastLine]
      have : ¬ ((s.length : Int) > 0) → (s.length : Int) = 0 := by omega
      by_cases h0 : (s.length : Int) > 0
      · simp [h0]
      · simp [this h0]
    · have hne : (l.length : Int) ≠ -1 := by omega
      have hnat : ((l.length : Int) + 1).toNat = l.length + 1 := by omega
      have hdrop : List.drop (l.length + 1) s = r := by
        rw [h1, List.drop_append_eq_append_drop]
        simp
      have hr : r.length < fuel := by
        have : s.length = l.length + 1 + r.length := by rw [h1]; simp; omega
        omega
      simp only [h3, hne, if_false, hnat, hdrop]
      rw [widthsLoop_lines fuel r _ hr, h1, splitLines_append l r h2,
        lastLine_cons l _ (splitLines_ne_nil r)]
      simp only [longestLine]
      by_cases ha : (l.length : Int) > m <;> by_cases hb : longestLine (splitLines r) > m <;>
        by_cases hc : (l.length : Int) > longestLine (splitLines r) <;>
        simp [ha, hb, hc] <;> omega

theorem widths_lines (s : GoString) :
    widths s = (longestLine (splitLines s), lastLine (splitLines s)) := by
  have hnn : ∀ ls : List GoString, 0 ≤ longestLine ls := by
    intro ls
    induction ls with
    | nil => simp [longestLine]
    | cons l ls ih => unfold longestLine; split <;> omega
  unfold widths
  rw [widthsLoop_lines (s.length + 1) s 0 (Nat.lt_succ_self _)]
  have := hnn (splitLines s)
  by_cases h0 : longestLine (splitLines s) > 0
  · simp [h0]
  · have : longestLine (splitLines s) = 0 := by omega
    simp [this]

theorem splitLines_length : ∀ s : GoString, (splitLines s).length = s.count newline + 1
  | [] => rfl
  | c :: cs => by
    have ih := splitLines_length cs
    unfold splitLines
    by_cases hc : c = newline
    · simp [hc, ih]
    · have hc2 : ¬ (c == newline) = true := by simpa using hc
      simp only [hc, if_false]
      cases hs : splitLines cs with
      | nil => exact absurd hs (splitLines_ne_nil cs)
      | cons l ls =>
        rw [hs] at ih
        simp only [List.length_cons] at ih ⊢
        rw [List.count_cons]
        simp only [hc2]
        simp only [Bool.false_eq_true, if_false]
        omega

theorem splitLines_join : ∀ s : GoString, [newline].intercalate (splitLines s) = s
  | [] => rfl
  | c :: cs => by
    have ih := splitLines_join cs
    unfold splitLines
    by_cases hc : c = newline
    · simp only [hc, if_true]
      cases hs : splitLines cs with
      | nil => exact absurd hs (splitLines_ne_nil cs)
      | cons l ls =>
        rw [hs] at ih
        simp only [List.intercalate, List.intersperse, List.flatten, List.nil_append] at ih ⊢
        simp [ih]
    · simp only [hc, if_false]
      cases hs : splitLines cs with
      | nil => exact absurd hs (splitLines_ne_nil cs)
      | cons l ls =>
        rw [hs] at ih
        cases ls with
        | nil =>
          simp only [List.intercalate, List.intersperse, List.flatten, List.append_nil] at ih ⊢
          simp [ih]
        | cons l2 ls2 =>
          simp only [List.intercalate, List.intersperse, List.flatten] at ih ⊢
          rw [← ih]
          simp

theorem splitLines_no_newline : ∀ (s : GoString), ∀ l ∈ splitLines s, newline ∉ l
  | [], l, h => by
    simp only [splitLines, List.mem_singleton] at h
    simp [h]
  | c :: cs, l, h => by
    have ih := splitLines_no_newline cs
    unfold splitLines at h
    by_cases hc : c = newline
    · simp only [hc, if_true, List.mem_cons] at h
      rcases h with rfl | h
      · simp
      · exact ih l h
    · simp only [hc, if_false] at h
      cases hs : splitLines cs with
      | nil => exact absurd hs (splitLines_ne_nil cs)
      | cons l1 ls =>
        rw [hs] at h ih
        simp only [List.mem_cons] at h
        rcases h with rfl | h
        · have := ih l1 (List.mem_cons_self _ _)
          simp only [List.mem_cons, not_or]
          exact ⟨fun e => hc e.symm, this⟩
        · exact ih l (List.mem_cons_of_mem _ h)

theorem lastLine_trailing_newline : ∀ t : GoString, lastLine (splitLines (t ++ [newline])) = 0
  | [] => by simp [splitLines, lastLine]
  | c :: t => by
    have ih := lastLine_trailing_newline t
    have hlen := splitLines_length (t ++ [newline])
    simp only [List.cons_append]
    unfold splitLines
    by_cases hc : c = newline
    · simp only [hc, if_true]
      rw [lastLine_cons _ _ (splitLines_ne_nil _)]
      exact ih
    · simp only [hc, if_false]
      cases hs : splitLines (t ++ [newline]) with
      | nil => exact absurd hs (splitLines_ne_nil _)
      | cons l ls =>
        rw [hs] at ih hlen
        cases ls with
        | nil =>
          simp only [List.length_cons, List.length_nil, List.count_append] at hlen
          have : List.count newline [newline] = 1 := by simp
          omega
        | cons l2 ls2 => exact ih

theorem longestLine_nonneg : ∀ ls : List GoString, 0 ≤ longestLine ls
  | [] => by simp [longestLine]
  | l :: ls => by
    have := longestLine_nonneg ls
    unfold longestLine
    split <;> omega

theorem lastLine_bounds : ∀ ls : List GoString, 0 ≤ lastLine ls ∧ lastLine ls ≤ longestLine ls
  | [] => by simp [lastLine, longestLine]
  | [l] => by
    simp only [lastLine, longestLine]
    split <;> omega
  | l :: l2 :: ls => by
    have ih := lastLine_bounds (l2 :: ls)
    rw [lastLine_cons l _ (by simp)]
    refine ⟨ih.1, ?_⟩
    rw [longestLine]
    split <;> omega

theorem longestLine_le_length : ∀ s : GoString, longestLine (splitLines s) ≤ (s.length : Int)
  | [] => by simp [splitLines, longestLine]
  | c :: cs => by
    have ih := longestLine_le_length cs
    have hnn := longestLine_nonneg (splitLines cs)
    unfold splitLines
    by_cases hc : c = newline
    · simp only [hc, if_true, longestLine, List.length_cons, List.length_nil]
      split <;> push_cast <;> omega
    · simp only [hc, if_false]
      cases hs : splitLines cs with
      | nil => exact absurd hs (splitLines_ne_nil cs)
      | cons l ls =>
        rw [hs] at ih
        have hls := longestLine_nonneg ls
        simp only [longestLine, List.length_cons] at ih ⊢
        push_cast at ih ⊢
        split at ih <;> split <;> omega

theorem longestLine_max : ∀ ls : List GoString, ls ≠ [] →
    (∀ l ∈ ls, (l.length : Int) ≤ longestLine ls) ∧ ∃ l ∈ ls, (l.length : Int) = longestLine ls
  | [], h => absurd rfl h
  | [l], _ => by
    rw [longestLine, longestLine]
    have hl : ((l.length : Int) > 0) ∨ (l.length : Int) = 0 := by omega
    rcases hl with h0 | h0
    · rw [if_pos h0]
      exact ⟨fun y hy => by rw [List.mem_singleton.mp hy], l, List.mem_singleton.mpr rfl, rfl⟩
    · rw [if_neg (by omega)]
      exact ⟨fun y hy => by rw [List.mem_singleton.mp hy, h0], l, List.mem_singleton.mpr rfl, h0⟩
  | l :: l2 :: ls, _ => by
    obtain ⟨ih1, x, hx, hx2⟩ := longestLine_max (l2 :: ls) (by simp)
    rw [longestLine]
    by_cases h : (l.length : Int) > longestLine (l2 :: ls)
    · simp only [h, if_true]
      refine ⟨fun y hy => ?_, l, List.mem_cons_self _ _, rfl⟩
      rcases List.mem_cons.mp hy with rfl | hy
      · exact Int.le_refl _
      · have := ih1 y hy
        omega
    · simp only [h, if_false]
      refine ⟨fun y hy => ?_, x, List.mem_cons_of_mem _ hx, hx2⟩
      rcases List.mem_cons.mp hy with rfl | hy
      · omega
      · exact ih1 y hy

theorem lastLine_getLast : ∀ (ls : List GoString) (h : ls ≠ []),
    lastLine ls = ((ls.getLast h).length : Int)
  | [], h => absurd rfl h
  | [l], _ => rfl
  | l :: l2 :: ls, _ => by
    rw [lastLine_cons l _ (by simp), lastLine_getLast (l2 :: ls) (by simp)]
    simp [List.getLast_cons]

/-! ## The Values that reach `visit` -/

theorem andThen_congr {σ : Type} (r : Run σ) (f g : visitor → σ → Run σ)
    (h : ∀ vis w, f vis w = g vis w) : r.andThen f = r.andThen g := by
  have : f = g := funext fun vis => funext fun w => h vis w
  rw [this]

theorem formatMapKeysLoop_congr_child {env1 env2 : Env} (v : Value) (st : RType) (isI : Bool) :
    ∀ (mks : List RValue) (s : KeysRun),
      (∀ vis, ∀ x0 ∈ mks, ∀ x typ, unwrap isI x0 = .ok x → x.Type = .ok typ →
        env1.visit vis (childValue v x typ st isI) =
          env2.visit vis (childValue v x typ st isI)) →
      formatMapKeysLoop env1 v st isI mks s = formatMapKeysLoop env2 v st isI mks s
  | [], _, _ => rfl
  | mk :: rest, s, h => by
    unfold formatMapKeysLoop
    simp only [visit_Builder]
    cases hun : unwrap isI mk with
    | error e => rfl
    | ok mk2 =>
      simp only []
      cases hty : mk2.Type with
      | error e => rfl
      | ok typ =>
        simp only []
        rw [← h s.vis mk (List.mem_cons_self _ _) mk2 typ hun hty]
        cases (env1.visit s.vis (childValue v mk2 typ st isI)).err with
        | some e => rfl
        | none =>
          simp only []
          exact formatMapKeysLoop_congr_child v st isI rest _
            (fun vis x0 hx0 => h vis x0 (List.mem_cons_of_mem _ hx0))

theorem formatMapKeys_congr_child {env1 env2 : Env} (hheap : env1.heap = env2.heap)
    (v : Value) (kt et : RType) (hd : v.DynamicType = some (.map kt et))
    (h : ∀ vis mks, v.Value.MapKeys env2.heap = .ok mks → ∀ x0 ∈ mks, ∀ x typ,
      unwrap (decide (kt.Kind = Kind.Interface)) x0 = .ok x → x.Type = .ok typ →
      env1.visit vis (childValue v x typ kt (decide (kt.Kind = Kind.Interface))) =
        env2.visit vis (childValue v x typ kt (decide (kt.Kind = Kind.Interface))))
    (vis : visitor) : vis.formatMapKeys env1 v = vis.formatMapKeys env2 v := by
  unfold visitor.formatMapKeys
  simp only [hd, RType.Key, hheap]
  cases hm : v.Value.MapKeys env2.heap with
  | error e => rfl
  | ok mks =>
    simp only []
    rw [formatMapKeysLoop_congr_child v kt _ mks _ (fun vis => h vis mks hm)]

theorem visitMapElementsLoop_congr_child {σ : Type} {env1 env2 : Env} (W : Writer σ)
    (hheap : env1.heap = env2.heap) (v : Value) (st : RType) (isI : Bool) (al : Int)
    (h : ∀ vis key x0 x typ, v.Value.MapIndex env2.heap key = .ok x0 →
      unwrap isI x0 = .ok x → x.Type = .ok typ →
      env1.visit vis (childValue v x typ st isI) = env2.visit vis (childValue v x typ st isI)) :
    ∀ (keys : List mapKey) (vis : visitor) (w : σ),
      visitMapElementsLoop env1 W v st isI al keys vis w =
        visitMapElementsLoop env2 W v st isI al keys vis w
  | [], _, _ => rfl
  | mk :: rest, vis, w => by
    unfold visitMapElementsLoop
    rw [hheap]
    cases hmi : v.Value.MapIndex env2.heap mk.Value with
    | error e => rfl
    | ok mv0 =>
      simp only []
      cases hun : unwrap isI mv0 with
      | error e => rfl
      | ok mv =>
        simp only []
        refine andThen_congr _ _ _ (fun vis1 w1 => ?_)
        refine andThen_congr _ _ _ (fun vis2 w2 => ?_)
        cases Repeat (str " ") (al - mk.Width) with
        | error e => rfl
        | ok pad =>
          simp only []
          refine andThen_congr _ _ _ (fun vis3 w3 => ?_)
          cases hty : mv.Type with
          | error e => rfl
          | ok typ =>
            simp only []
            have hv : visitor.visit env1 W vis3 w3 (childValue v mv typ st isI) =
                visitor.visit env2 W vis3 w3 (childValue v mv typ st isI) := by
              unfold visitor.visit
              rw [h vis3 mk.Value mv0 mv typ hmi hun hty]
            rw [hv]
            refine andThen_congr _ _ _ (fun vis4 w4 => ?_)
            refine andThen_congr _ _ _ (fun vis5 w5 => ?_)
            exact visitMapElementsLoop_congr_child W hheap v st isI al h rest vis5 w5

theorem visitMapElements_congr_child {σ : Type} {env1 env2 : Env} (W : Writer σ)
    (hheap : env1.heap = env2.heap) (v : Value) (kt et : RType)
    (hd : v.DynamicType = some (.map kt et))
    (hkey : ∀ vis mks, v.Value.MapKeys env2.heap = .ok mks → ∀ x0 ∈ mks, ∀ x typ,
      unwrap (decide (kt.Kind = Kind.Interface)) x0 = .ok x → x.Type = .ok typ →
      env1.visit vis (childValue v x typ kt (decide (kt.Kind = Kind.Interface))) =
        env2.visit vis (childValue v x typ kt (decide (kt.Kind = Kind.Interface))))
    (helem : ∀ vis key x0 x typ, v.Value.MapIndex env2.heap key = .ok x0 →
      unwrap (decide (et.Kind = Kind.Interface)) x0 = .ok x → x.Type = .ok typ →
      env1.visit vis (childValue v x typ et (decide (et.Kind = Kind.Interface))) =
        env2.visit vis (childValue v x typ et (decide (et.Kind = Kind.Interface))))
    (vis : visitor) (w : σ) :
    vis.visitMapElements env1 W w v = vis.visitMapElements env2 W w v := by
  unfold visitor.visitMapElements
  simp only [hd, RType.Elem, formatMapKeys_congr_child hheap v kt et hd hkey]
  cases (vis.formatMapKeys env2 v).err with
  | some e => rfl
  | none =>
    simp only []
    exact visitMapElementsLoop_congr_child W hheap v et _ _ helem _ _ _

theorem visitMap_congr_child {σ : Type} {env1 env2 : Env} (W : Writer σ)
    (hheap : env1.heap = env2.heap) (hamb : env1.IsAmbiguousType = env2.IsAmbiguousType)
    (hname : env1.TypeName = env2.TypeName) (v : Value) (kt et : RType)
    (hd : v.DynamicType = some (.map kt et))
    (hkey : ∀ vis mks, v.Value.MapKeys env2.heap = .ok mks → ∀ x0 ∈ mks, ∀ x typ,
      unwrap (decide (kt.Kind = Kind.Interface)) x0 = .ok x → x.Type = .ok typ →
      env1.visit vis (childValue v x typ kt (decide (kt.Kind = Kind.Interface))) =
        env2.visit vis (childValue v x typ kt (decide (kt.Kind = Kind.Interface))))
    (helem : ∀ vis key x0 x typ, v.Value.MapIndex env2.heap key = .ok x0 →
      unwrap (decide (et.Kind = Kind.Interface)) x0 = .ok x → x.Type = .ok typ →
      env1.visit vis (childValue v x typ et (decide (et.Kind = Kind.Interface))) =
        env2.visit vis (childValue v x typ et (decide (et.Kind = Kind.Interface))))
    (vis : visitor) (w : σ) :
    vis.visitMap env1 W w v = vis.visitMap env2 W w v := by
  unfold visitor.visitMap visitor.enter visitMapBody
  simp only [hheap, hamb, hname]
  have he : ∀ (W2 : Writer (σ × Bool)) vis2 w2,
      visitor.visitMapElements env1 W2 vis2 w2 v = visitor.visitMapElements env2 W2 vis2 w2 v :=
    fun W2 vis2 w2 => visitMapElements_congr_child W2 hheap v kt et hd hkey helem vis2 w2
  simp only [he]

theorem childValue_childOf (v : Value) (x : RValue) (typ st : RType) :
    ChildOf v st (childValue v x typ st (decide (st.Kind = Kind.Interface))) :=
  ⟨rfl, rfl, rfl, rfl⟩

theorem lookupKey_mem (key : RValue) : ∀ es : List (RValue × RValue),
    lookupKey key es = RValue.invalid ∨ lookupKey key es ∈ es.map Prod.snd
  | [] => Or.inl rfl
  | (k, x) :: rest => by
    unfold lookupKey
    by_cases h : k = key
    · simp [h]
    · simp only [h, if_false]
      rcases lookupKey_mem key rest with h1 | h1
      · exact Or.inl h1
      · exact Or.inr (List.mem_cons_of_mem _ h1)

theorem unwrapped_child (v : Value) (st : RType) (x0 x : RValue) (typ : RType)
    (hwt : hasType st x0 = true)
    (hun : unwrap (decide (st.Kind = Kind.Interface)) x0 = .ok x) (hty : x.Type = .ok typ) :
    Unwrapped st x0 (childValue v x typ st (decide (st.Kind = Kind.Interface))) := by
  by_cases hk : st.Kind = Kind.Interface
  · simp only [unwrap, hk, decide_True, if_true] at hun
    cases x0 with
    | invalid => simp [hasType] at hwt
    | basic t d =>
      simp only [hasType, Bool.and_eq_true, decide_eq_true_eq] at hwt
      rw [hwt.1, hk] at hwt
      exact absurd hwt.2 (by decide)
    | nilIface t =>
      simp only [hasType, Bool.and_eq_true, decide_eq_true_eq] at hwt
      simp only [RValue.IsNil] at hun
      injection hun with hun
      subst hun
      simp only [RValue.Type] at hty
      injection hty with hty
      exact Unwrapped.nil t _ hk rfl (by simp [childValue, ← hty, hwt.1])
    | iface t h =>
      simp only [hasType, Bool.and_eq_true, decide_eq_true_eq] at hwt
      simp only [RValue.IsNil, RValue.Elem] at hun
      injection hun with hun
      simp only [Bool.not_false, if_true] at hun
      subst hun
      rw [hty] at hwt
      exact Unwrapped.held t h typ _ hk hty (by simpa using hwt.2) rfl rfl
    | map t q =>
      simp only [hasType, Bool.and_eq_true, decide_eq_true_eq] at hwt
      rw [hwt.1, hk] at hwt
      exact absurd hwt.2 (by decide)
  · simp only [unwrap, hk, decide_False] at hun
    injection hun with hun
    subst hun
    refine Unwrapped.direct x0 _ hk rfl ?_
    cases x0 with
    | invalid => simp [hasType] at hwt
    | basic t d =>
      simp only [hasType, Bool.and_eq_true, decide_eq_true_eq] at hwt
      simp only [RValue.Type] at hty
      injection hty with hty
      simp [childValue, ← hty, hwt.1]
    | nilIface t =>
      simp only [hasType, Bool.and_eq_true, decide_eq_true_eq] at hwt
      rw [hwt.1] at hwt
      exact absurd hwt.2 hk
    | iface t h =>
      simp only [hasType, Bool.and_eq_true, decide_eq_true_eq] at hwt
      rw [hwt.1.1] at hwt
      exact absurd hwt.1.2 hk
    | map t q =>
      simp only [hasType, Bool.and_eq_true, decide_eq_true_eq] at hwt
      simp only [RValue.Type] at hty
      injection hty with hty
      simp [childValue, ← hty, hwt.1]

/-! ## `Printer.Write` -/

theorem RType_kind_valid (t : RType) : t.Kind ≠ Kind.Invalid := by
  cases t <;> simp [RType.Kind]

theorem RValue_kind_invalid (x : RValue) : x.Kind = Kind.Invalid ↔ x = RValue.invalid := by
  cases x <;> simp [RValue.Kind, RType_kind_valid]

theorem Write_eq {φ σ : Type}
    (mv : Printer.visitor φ → Writer (CountWriter σ) → CountWriter σ → Value →
      Traversal (CountWriter σ))
    (p : Printer φ) (S : Sink σ) (w : σ) (v : Option RValue) :
    p.Write mv S w v =
      match (p.traversal mv S w v).panic with
      | none =>
        { p := p, w := (p.traversal mv S w v).w.w
          out := .returned ((p.traversal mv S w v).w.count, none) }
      | some (.sentinel cause) =>
        { p := p, w := (p.traversal mv S w v).w.w, out := .returned (0, some cause) }
      | some (.value x) =>
        { p := p, w := (p.traversal mv S w v).w.w, out := .panicked (.value x) } := by
  have hcfg : (if (if p.Config.Indent.length = 0 then
        ({ config := { p.Config with Indent := DefaultIndent } } : Printer.visitor φ)
        else { config := p.Config }).config.RecursionMarker = [] then
      ({ config := { (if p.Config.Indent.length = 0 then
          ({ config := { p.Config with Indent := DefaultIndent } } : Printer.visitor φ)
          else { config := p.Config }).config with
            RecursionMarker := DefaultRecursionMarker } } : Printer.visitor φ)
      else (if p.Config.Indent.length = 0 then
        ({ config := { p.Config with Indent := DefaultIndent } } : Printer.visitor φ)
        else { config := p.Config })) = { config := p.traversalConfig } := by
    unfold Printer.traversalConfig
    by_cases h1 : p.Config.Indent.length = 0 <;> by_cases h2 : p.Config.RecursionMarker = [] <;>
      simp [h1, h2]
  unfold Printer.Write Printer.traversal
  simp only [hcfg]
  cases v with
  | none => rfl
  | some x =>
    cases x <;> simp [ValueOf, RValue.Kind, RValue.Type, RType_kind_valid, rootOf,
      Except.toOption, CountWriter.Count]

/-! ## Runs that complete -/

set_option maxRecDepth 1000000 in
/-- On a map whose keys all render, `formatMapKeys` returns; its keys are a
permutation of the enumerated keys, each unwrapped and paired with its own
rendering; no key of the slice has a rendering byte-wise less than that of a
key before it; and `visitMapElements`, when it completes, has written the
entries in the order of that slice. -/
theorem formatMapKeys_sorted_permutation (env : Env) (hb : Balanced env) (vis : visitor)
    (v : Value) (t kt et : RType) (p : Nat) (hv : v.Value = .map t p)
    (hd : v.DynamicType = some (.map kt et))
    (hk : ∀ k ∈ (env.heap p).map Prod.fst, KeyRenders env vis v kt k) :
    (vis.formatMapKeys env v).err = none ∧
      (vis.formatMapKeys env v).keys.Perm
        (((env.heap p).map Prod.fst).map (keyOf env vis v kt)) ∧
      (vis.formatMapKeys env v).keys.Pairwise
        (fun a b => GoString.less b.String a.String = false) ∧
      ∀ b : GoString, (vis.visitMapElements env Builder b v).err = none →
        (vis.visitMapElements env Builder b v).w =
          b ++ ((vis.formatMapKeys env v).keys.map
            (entryText env vis v et (vis.formatMapKeys env v).alignment)).flatten := by
  obtain ⟨h1, h2⟩ := formatMapKeys_keys hb vis v t kt et p hv hd hk
  refine ⟨h1, ?_, ?_, ?_⟩
  · rw [h2]; exact sortSlice_perm _ _
  · rw [h2]; exact sortSlice_mapKey_sorted _
  · intro b hok
    rw [visitMapElements_faithful Builder_faithful] at hok ⊢
    simp only [elementsOut_eq hb vis v kt et hd h1] at hok ⊢
    rw [elementsLoopOut_text hb v et _ _ vis hok]

set_option maxRecDepth 1000000 in
/-- An example: the map of `TestPrinter_SyncMapKeySorting`, enumerated
`"foo"` first, comes out `"bar"` first. -/
theorem formatMapKeys_sorted_permutation_witness :
    ((vis0.formatMapKeys (leafEnv (heapOf sortingEntries)) (mapValue stringIntT 1)).keys.map
        mapKey.String = [str "\"bar\"", str "\"foo\""]) ∧
      ((vis0.formatMapKeys (leafEnv (heapOf sortingEntries)) (mapValue stringIntT 1)).err = none ∧
      (vis0.formatMapKeys (leafEnv (heapOf sortingEntries)) (mapValue stringIntT 1)).keys.Perm
        ((((leafEnv (heapOf sortingEntries)).heap 1).map Prod.fst).map
          (keyOf (leafEnv (heapOf sortingEntries)) vis0 (mapValue stringIntT 1) stringT)) ∧
      (vis0.formatMapKeys (leafEnv (heapOf sortingEntries)) (mapValue stringIntT 1)).keys.Pairwise
        (fun a b => GoString.less b.String a.String = false) ∧
      ∀ b : GoString,
        (vis0.visitMapElements (leafEnv (heapOf sortingEntries)) Builder b
          (mapValue stringIntT 1)).err = none →
        (vis0.visitMapElements (leafEnv (heapOf sortingEntries)) Builder b
          (mapValue stringIntT 1)).w =
          b ++ ((vis0.formatMapKeys (leafEnv (heapOf sortingEntries))
              (mapValue stringIntT 1)).keys.map
            (entryText (leafEnv (heapOf sortingEntries)) vis0 (mapValue stringIntT 1) intT
              (vis0.formatMapKeys (leafEnv (heapOf sortingEntries))
                (mapValue stringIntT 1)).alignment)).flatten) :=
  ⟨by decide,
    formatMapKeys_sorted_permutation (leafEnv (heapOf sortingEntries)) (fun _ _ => rfl) vis0
      (mapValue stringIntT 1) stringIntT stringT intT 1 rfl rfl (by decide)⟩

set_option maxRecDepth 1000000 in
/-- A non-empty map that is not on the recursion guard, rendered to a
builder, when `visitMap` completes: after the type name, if any, the text is
`"{\n"`, then, indented, the entries in the order `formatMapKeys` returned,
each one the rendered key, `": "`, `alignment - Width` spaces, the rendered
value and a newline, then `"}"`; there is one entry per key of the map. Keys
and values are rendered with the map on the guard. -/
theorem visitMap_text (env : Env) (hb : Balanced env) (vis : visitor) (w : GoString)
    (v : Value) (t kt et : RType) (p : Nat) (hv : v.Value = .map t p)
    (hd : v.DynamicType = some (.map kt et)) (hne : env.heap p ≠ [])
    (hg : p ∉ vis.recursionSet) (hok : (vis.visitMap env Builder w v).err = none) :
    (vis.visitMap env Builder w v).w =
        w ++ (if env.IsAmbiguousType v then env.TypeName v else []) ++ str "\x7b\n" ++
          indentText (indentOf vis.indent) false
            ((visitor.formatMapKeys env { vis with recursionSet := p :: vis.recursionSet } v).keys.map
              (entryText env { vis with recursionSet := p :: vis.recursionSet } v et
                (visitor.formatMapKeys env
                  { vis with recursionSet := p :: vis.recursionSet } v).alignment)).flatten ++
          str "\x7d" ∧
      (visitor.formatMapKeys env { vis with recursionSet := p :: vis.recursionSet } v).keys.length =
        (env.heap p).length := by
  have hlen : (env.heap p).length ≠ 0 := fun h => hne (List.eq_nil_of_length_eq_zero h)
  obtain ⟨hw, he⟩ := visitMap_Builder env vis w v t p hv hg
  rw [he, visitMapBody_Builder env _ w v t p hv] at hok
  rw [hw, visitMapBody_Builder env _ w v t p hv]
  simp only [hlen, if_false] at hok ⊢
  have hkr := elementsOut_err _ v kt et hd hok
  refine ⟨?_, formatMapKeys_length env _ v t p hv hkr⟩
  have htext := elementsOut_eq hb { vis with recursionSet := p :: vis.recursionSet } v kt et hd hkr
  have hok2 := hok
  rw [htext] at hok2
  rw [hok, htext, elementsLoopOut_text hb v et _ _ _ hok2]
  simp

set_option maxRecDepth 1000000 in
/-- An example: the entries `1: 100` and `2: 200` with a four-space
indent. -/
theorem visitMap_text_witness :
    (vis0.visitMap (leafEnv (heapOf intsEntries)) Builder [] (mapValue intIntT 1)).w =
        str "\x7b\n    1: 100\n    2: 200\n\x7d" ∧
      ((vis0.visitMap (leafEnv (heapOf intsEntries)) Builder [] (mapValue intIntT 1)).w =
        [] ++ (if (leafEnv (heapOf intsEntries)).IsAmbiguousType (mapValue intIntT 1) then
            (leafEnv (heapOf intsEntries)).TypeName (mapValue intIntT 1) else []) ++
          str "\x7b\n" ++
          indentText (indentOf vis0.indent) false
            ((visitor.formatMapKeys (leafEnv (heapOf intsEntries))
                { vis0 with recursionSet := 1 :: vis0.recursionSet } (mapValue intIntT 1)).keys.map
              (entryText (leafEnv (heapOf intsEntries))
                { vis0 with recursionSet := 1 :: vis0.recursionSet } (mapValue intIntT 1) intT
                (visitor.formatMapKeys (leafEnv (heapOf intsEntries))
                  { vis0 with recursionSet := 1 :: vis0.recursionSet }
                  (mapValue intIntT 1)).alignment)).flatten ++
          str "\x7d" ∧
      (visitor.formatMapKeys (leafEnv (heapOf intsEntries))
          { vis0 with recursionSet := 1 :: vis0.recursionSet } (mapValue intIntT 1)).keys.length =
        ((leafEnv (heapOf intsEntries)).heap 1).length) :=
  ⟨by decide,
    visitMap_text (leafEnv (heapOf intsEntries)) (fun _ _ => rfl) vis0 [] (mapValue intIntT 1)
      intIntT intT intT 1 rfl rfl (by decide) (by decide) (by decide)⟩

theorem spaces_length (n : Int) : (spaces n).length = n.toNat := by
  unfold spaces
  induction n.toNat with
  | zero => rfl
  | succ k ih =>
    rw [List.replicate_succ, List.flatten_cons, List.length_append, ih]
    have : (str " ").length = 1 := by decide
    omega

theorem elementsLoopOut_ok {env : Env} (hb : Balanced env) (v : Value) (et : RType) (al : Int) :
    ∀ (keys : List mapKey) (vis : visitor),
      (∀ mk ∈ keys, 0 ≤ al - mk.Width ∧ ElemRenders env vis v et mk.Value) →
      (elementsLoopOut env v et (decide (et.Kind = Kind.Interface)) al keys vis).err = none
  | [], _, _ => by simp [elementsLoopOut]
  | mk :: rest, vis, h => by
    obtain ⟨hpad, h1, h2, h3, h4⟩ := h mk (List.mem_cons_self _ _)
    unfold elementsLoopOut
    cases hmi : v.Value.MapIndex env.heap mk.Value with
    | error e => rw [hmi] at h1; simp [Except.toBool] at h1
    | ok mv0 =>
      have hio : indexOr env v mk.Value = mv0 := by simp [indexOr, hmi]
      rw [hio] at h2 h3
      have hrep : Repeat (str " ") (al - mk.Width) =
          .ok (List.replicate (al - mk.Width).toNat (str " ")).flatten := by
        unfold Repeat
        rw [if_neg (by omega)]
      have hev : elemValue env v et mk.Value =
          childValue v (unwrapOr (decide (et.Kind = Kind.Interface)) mv0)
            (typeOr et (unwrapOr (decide (et.Kind = Kind.Interface)) mv0)) et
            (decide (et.Kind = Kind.Interface)) := by
        simp [elemValue, hmi]
      rw [hev] at h4
      simp only [unwrapOr_of_toBool h2, hrep, typeOr_of_toBool et h3, h4, hb vis]
      exact elementsLoopOut_ok hb v et al rest vis
        (fun mk2 hmk2 => h mk2 (List.mem_cons_of_mem _ hmk2))

/-! # The properties of the specification, C1 to C20 -/

set_option maxRecDepth 1000000

/-- C3, at the failing input: a map with one key, which renders as a single
newline. The longest line of the rendering has length 0 and is also its last
line, yet `formatMapKeys` returns the alignment `-1`, not `0`. -/
theorem formatMapKeys_newline_key :
    widths (str "\n") = (0, 0) ∧
      (vis1.formatMapKeys (leafEnv (heapOf newlineKeyEntries)) (mapValue stringIntT 1)).keys =
        [{ Value := strVal "\n", String := str "\n", Width := 0 }] ∧
      (vis1.formatMapKeys (leafEnv (heapOf newlineKeyEntries))
        (mapValue stringIntT 1)).err = none ∧
      (vis1.formatMapKeys (leafEnv (heapOf newlineKeyEntries))
        (mapValue stringIntT 1)).alignment = -1 := by
  decide

/-- C4, at the failing input: the map of
`TestPrinter_MultilineSyncMapKeyAlignment`. After the last line of the
multi-line key `visitMap` writes `": "` and 30 spaces of padding before the
value; the test expects the value right after `": "`. -/
theorem visitMap_pads_multiline_key :
    (vis0.visitMap (leafEnv (heapOf galaxyEntries)) Builder [] (mapValue stringStringT 1)).err =
        none ∧
      (vis0.visitMap (leafEnv (heapOf galaxyEntries)) Builder [] (mapValue stringStringT 1)).w =
        str "\x7b\n    \"short\":                         \"one\"\n    \"the longest key in the galaxy\": \"two\"\n    dapper_test.multiline\x7b\n        Key: \"multiline key\"\n    \x7d:                               \"three\"\n\x7d" ∧
      (vis0.visitMap (leafEnv (heapOf galaxyEntries)) Builder [] (mapValue stringStringT 1)).w ≠
        str "\x7b\n    \"short\":                         \"one\"\n    \"the longest key in the galaxy\": \"two\"\n    dapper_test.multiline\x7b\n        Key: \"multiline key\"\n    \x7d: \"three\"\n\x7d" := by
  decide

/-- C5, at the failing input: one map, two enumeration orders. A single-line
key and a multi-line key whose widest line is not its last have the same
longest line (24 bytes). Enumerated single-line key first the alignment is 24
and the map is rendered; enumerated the other way round the alignment is 23
and `visitMap` panics in `strings.Repeat`. The rendered keys are the same in
both runs. -/
theorem formatMapKeys_enumeration_order :
    tieEntries.Perm tieEntriesSwapped ∧
      (vis1.formatMapKeys (leafEnv (heapOf tieEntries)) (mapValue stringStringT 1)).keys.map
          mapKey.String =
        (vis1.formatMapKeys (leafEnv (heapOf tieEntriesSwapped))
          (mapValue stringStringT 1)).keys.map mapKey.String ∧
      (vis1.formatMapKeys (leafEnv (heapOf tieEntries)) (mapValue stringStringT 1)).alignment =
        24 ∧
      (vis1.formatMapKeys (leafEnv (heapOf tieEntriesSwapped))
        (mapValue stringStringT 1)).alignment = 23 ∧
      (vis0.visitMap (leafEnv (heapOf tieEntries)) Builder [] (mapValue stringStringT 1)).err =
        none ∧
      (vis0.visitMap (leafEnv (heapOf tieEntries)) Builder [] (mapValue stringStringT 1)).w =
        str "\x7b\n    \"the longest key in the\": \"one\"\n    dapper_test.multiline\x7b\n        Key: \"multiline key\"\n    \x7d:                        \"three\"\n\x7d" ∧
      (vis0.visitMap (leafEnv (heapOf tieEntriesSwapped)) Builder []
        (mapValue stringStringT 1)).err = some "strings: negative Repeat count" ∧
      (vis0.visitMap (leafEnv (heapOf tieEntriesSwapped)) Builder []
        (mapValue stringStringT 1)).w = str "\x7b\n    \"the longest key in the\": " := by
  refine ⟨List.Perm.swap _ _ _, ?_⟩
  decide

/-- C7, amended. An empty map that is not on the recursion guard, rendered to
a builder: `visitMap` completes and writes `"{}"`, preceded by the type name
exactly when `IsAmbiguousType` holds; so the complete output is `"{}"` for an
unambiguous map. -/
theorem visitMap_empty (env : Env) (vis : visitor) (w : GoString) (v : Value) (t : RType)
    (p : Nat) (hv : v.Value = .map t p) (hlen : v.Value.Len env.heap = .ok 0)
    (hg : p ∉ vis.recursionSet) :
    (vis.visitMap env Builder w v).w =
        w ++ (if env.IsAmbiguousType v then env.TypeName v else []) ++ str "\x7b\x7d" ∧
      (vis.visitMap env Builder w v).err = none ∧
      (env.IsAmbiguousType v = false → (vis.visitMap env Builder [] v).w = str "\x7b\x7d") := by
  have h0 : (env.heap p).length = 0 := by
    rw [hv] at hlen
    simp only [RValue.Len] at hlen
    injection hlen
  obtain ⟨hw, he⟩ := visitMap_Builder env vis w v t p hv hg
  obtain ⟨hw2, _⟩ := visitMap_Builder env vis [] v t p hv hg
  rw [hw, he, hw2, visitMapBody_Builder env _ w v t p hv, visitMapBody_Builder env _ [] v t p hv]
  simp only [h0, if_true]
  refine ⟨trivial, trivial, fun hamb => ?_⟩
  simp [hamb]

/-- Witness of C7, amended: an empty `map[int]int` reached through a slot of
that type. -/
theorem visitMap_empty_witness :
    (vis0.visitMap (leafEnv (heapOf [])) Builder [] (mapValue intIntT 1)).w =
        [] ++ (if (leafEnv (heapOf [])).IsAmbiguousType (mapValue intIntT 1) then
          (leafEnv (heapOf [])).TypeName (mapValue intIntT 1) else []) ++ str "\x7b\x7d" ∧
      (vis0.visitMap (leafEnv (heapOf [])) Builder [] (mapValue intIntT 1)).err = none ∧
      ((leafEnv (heapOf [])).IsAmbiguousType (mapValue intIntT 1) = false →
        (vis0.visitMap (leafEnv (heapOf [])) Builder [] (mapValue intIntT 1)).w =
          str "\x7b\x7d") :=
  visitMap_empty (leafEnv (heapOf [])) vis0 [] (mapValue intIntT 1) intIntT 1 rfl rfl
    (by decide)

/-- Counterexample to C7: an empty `map[int]int` at the root of a traversal
has `Len() = 0`, and the complete output of `visitMap` is `map[int]int{}`. -/
theorem visitMap_empty_ambiguous :
    (rootValue intIntT 1).Value.Len (leafEnv (heapOf [])).heap = .ok 0 ∧
      (vis0.visitMap (leafEnv (heapOf [])) Builder [] (rootValue intIntT 1)).w =
        str "map[int]int\x7b\x7d" ∧
      (vis0.visitMap (leafEnv (heapOf [])) Builder [] (rootValue intIntT 1)).w ≠
        str "\x7b\x7d" :=
  ⟨rfl, by decide, by decide⟩

/-- C8. A map that is not on the recursion guard, rendered to a builder,
empty or not, completing or not: the output is the type name, written exactly
when `IsAmbiguousType` holds, then `"{"` and a rest that is the same whatever
`IsAmbiguousType` answers. -/
theorem visitMap_type_name (env : Env) (vis : visitor) (w : GoString) (v : Value) (t : RType)
    (p : Nat) (hv : v.Value = .map t p) (hg : p ∉ vis.recursionSet) :
    ∃ rest : GoString, ∀ amb : Value → Bool,
      (vis.visitMap { env with IsAmbiguousType := amb } Builder w v).w =
        w ++ (if amb v then env.TypeName v else []) ++ str "\x7b" ++ rest := by
  refine ⟨if (env.heap p).length = 0 then str "\x7d"
    else str "\n" ++ indentText (indentOf vis.indent) false
        (elementsOut env { vis with recursionSet := p :: vis.recursionSet } v).text ++
      (if (elementsOut env { vis with recursionSet := p :: vis.recursionSet } v).err = none
        then str "\x7d" else []), fun amb => ?_⟩
  obtain ⟨hw, _⟩ := visitMap_Builder { env with IsAmbiguousType := amb } vis w v t p hv hg
  have hc := @elementsOut_congr { env with IsAmbiguousType := amb } env
    (fun _ => True) (fun _ _ _ => ⟨rfl, trivial⟩) rfl
    { vis with recursionSet := p :: vis.recursionSet } v trivial
  rw [hw, visitMapBody_Builder _ _ w v t p hv, hc]
  by_cases hlen : (env.heap p).length = 0
  · simp [hlen, str_braces]
  · simp [hlen, str_open_brace]

/-- Witness of C8: the entries `1: 100` and `2: 200`. -/
theorem visitMap_type_name_witness :
    ∃ rest : GoString, ∀ amb : Value → Bool,
      (vis0.visitMap { leafEnv (heapOf intsEntries) with IsAmbiguousType := amb } Builder []
          (mapValue intIntT 1)).w =
        [] ++ (if amb (mapValue intIntT 1) then
          (leafEnv (heapOf intsEntries)).TypeName (mapValue intIntT 1) else []) ++
          str "\x7b" ++ rest :=
  visitMap_type_name (leafEnv (heapOf intsEntries)) vis0 [] (mapValue intIntT 1) intIntT 1 rfl
    (by decide)

/-- C9. When `enter` reports that the map is already being visited, the whole
effect of `visitMap` is that of `enter`: the same whatever the memory holds
and whatever `visit` would do, with the visitor as it was; to a builder it
writes `<type>(<marker>)` and nothing else, and returns. Hence a map that
holds references to itself is rendered within two levels of nesting: more
stack changes nothing. -/
theorem visitMap_cycle_safety {σ : Type} (env : Env) (W : Writer σ) (vis : visitor) (w : σ)
    (v : Value) (h : (vis.enter env W w v).2 = true) :
    vis.visitMap env W w v = (vis.enter env W w v).1 ∧
      (∀ (heap2 : Heap) (visit2 : visitor → Value → Rendered),
        vis.visitMap { env with heap := heap2, visit := visit2 } W w v =
          vis.visitMap env W w v) ∧
      (vis.visitMap env W w v).vis = vis ∧
      (∀ b : GoString,
        (vis.visitMap env Builder b v).w =
            b ++ (env.TypeName v ++ str "(" ++ vis.recursionMarker ++ str ")") ∧
          (vis.visitMap env Builder b v).err = none) ∧
      (∀ (es : List (RValue × RValue)) (visr : visitor) (root : Value) (t : RType),
        root.Value = .map t 1 → ∀ n : Nat,
          dispatch (heapOf es) (n + 2) visr root = dispatch (heapOf es) 2 visr root) := by
  have hg := (enter_true_iff env W vis w v).mp h
  refine ⟨?_, ?_, ?_, ?_, ?_⟩
  · rw [visitMap_visiting env W vis w v hg]
    simp [visitor.enter, hg]
  · intro heap2 visit2
    rw [visitMap_visiting env W vis w v hg, visitMap_visiting _ W vis w v hg]
  · rw [visitMap_visiting env W vis w v hg]
    rfl
  · intro b
    rw [visitMap_visiting env Builder vis b v hg]
    exact ⟨rfl, rfl⟩
  · intro es visr root t hroot n
    exact dispatch_fuel es visr root t hroot n 0

/-- Witness of C9: the map of `TestPrinter_SyncMapRecursion`, met again while
it is being visited; and its rendering from the root. -/
theorem visitMap_cycle_safety_witness :
    ((dispatch (heapOf selfEntries) 2 vis0 (rootValue stringAnyT 1)).text =
        str "map[string]interface \x7b\x7d\x7b\n    \"child\": map[string]interface \x7b\x7d(<recursion>)\n\x7d" ∧
      (dispatch (heapOf selfEntries) 2 vis0 (rootValue stringAnyT 1)).err = none) ∧
    (vis1.visitMap (leafEnv (heapOf selfEntries)) Builder [] (rootValue stringAnyT 1) =
        (vis1.enter (leafEnv (heapOf selfEntries)) Builder [] (rootValue stringAnyT 1)).1 ∧
      (∀ (heap2 : Heap) (visit2 : visitor → Value → Rendered),
        vis1.visitMap { leafEnv (heapOf selfEntries) with heap := heap2, visit := visit2 }
            Builder [] (rootValue stringAnyT 1) =
          vis1.visitMap (leafEnv (heapOf selfEntries)) Builder [] (rootValue stringAnyT 1)) ∧
      (vis1.visitMap (leafEnv (heapOf selfEntries)) Builder [] (rootValue stringAnyT 1)).vis =
        vis1 ∧
      (∀ b : GoString,
        (vis1.visitMap (leafEnv (heapOf selfEntries)) Builder b (rootValue stringAnyT 1)).w =
            b ++ ((leafEnv (heapOf selfEntries)).TypeName (rootValue stringAnyT 1) ++ str "(" ++
              vis1.recursionMarker ++ str ")") ∧
          (vis1.visitMap (leafEnv (heapOf selfEntries)) Builder b
            (rootValue stringAnyT 1)).err = none) ∧
      (∀ (es : List (RValue × RValue)) (visr : visitor) (root : Value) (t : RType),
        root.Value = .map t 1 → ∀ n : Nat,
          dispatch (heapOf es) (n + 2) visr root = dispatch (heapOf es) 2 visr root)) :=
  ⟨by decide,
    visitMap_cycle_safety (leafEnv (heapOf selfEntries)) Builder vis1 []
      (rootValue stringAnyT 1) (by decide)⟩

/-- C10. Whatever the sink and whatever nested visits render, as long as they
hand the visitor back as they found it: the guard calls `visitMap` makes are
`enter(v)` first and then, exactly when `enter` returned false, one
`leave(v)` - also when the body panics; and the visitor, its guard included,
is afterwards what it was before. -/
theorem visitMap_guard_pairing {σ : Type} (env : Env) (hb : Balanced env) (W : Writer σ)
    (vis : visitor) (w : σ) (v : Value) :
    (vis.visitMap env W w v).calls =
        GuardCall.enter v.Value.Pointer ::
          (if (vis.enter env W w v).2 then [] else [GuardCall.leave v.Value.Pointer]) ∧
      (vis.visitMap env W w v).vis = vis :=
  visitMap_calls_vis env hb W vis w v

/-- Witness of C10: the entries `1: 100` and `2: 200` written to a sink that
fails after ten bytes. -/
theorem visitMap_guard_pairing_witness :
    (vis0.visitMap (leafEnv (heapOf intsEntries)) LimitedWriter
        { buf := [], room := 10, e := "full" } (mapValue intIntT 1)).err = some "full" ∧
      ((vis0.visitMap (leafEnv (heapOf intsEntries)) LimitedWriter
          { buf := [], room := 10, e := "full" } (mapValue intIntT 1)).calls =
        GuardCall.enter (mapValue intIntT 1).Value.Pointer ::
          (if (vis0.enter (leafEnv (heapOf intsEntries)) LimitedWriter
              { buf := [], room := 10, e := "full" } (mapValue intIntT 1)).2 then []
            else [GuardCall.leave (mapValue intIntT 1).Value.Pointer]) ∧
      (vis0.visitMap (leafEnv (heapOf intsEntries)) LimitedWriter
          { buf := [], room := 10, e := "full" } (mapValue intIntT 1)).vis = vis0) :=
  ⟨by decide,
    visitMap_guard_pairing (leafEnv (heapOf intsEntries)) (fun _ _ => rfl) LimitedWriter vis0
      { buf := [], room := 10, e := "full" } (mapValue intIntT 1)⟩

/-- C16, at the failing input: the five characters of `héllo` are six bytes,
and `widths` returns 6 for the longest and for the last line: it counts bytes
(`len`, `strings.IndexByte`), not characters. -/
theorem widths_counts_bytes :
    "héllo".length = 5 ∧
      str "héllo" = [0x68, 0xc3, 0xa9, 0x6c, 0x6c, 0x6f] ∧
      widths (str "héllo") = (6, 6) := by
  decide

/-- C17. For every string `widths` returns, the loop never needing more than
`len(s) + 1` rounds; `splitLines s` are the lines of `s` (joined by newlines
they give `s` back, none contains a newline, `k` newlines give `k + 1` lines);
the first result is the byte length of a longest line, the second that of the
last line. Hence `widths("") = (0, 0)`, a string without newline gives its
length twice, and a string ending in a newline gives `last = 0`. -/
theorem widths_lines_spec (s : GoString) :
    (∀ fuel : Nat, s.length < fuel → widthsLoop fuel s 0 = widths s) ∧
      ([newline].intercalate (splitLines s) = s ∧
        (∀ l ∈ splitLines s, newline ∉ l) ∧
        (splitLines s).length = s.count newline + 1) ∧
      ((∀ l ∈ splitLines s, (l.length : Int) ≤ (widths s).1) ∧
        ∃ l ∈ splitLines s, (l.length : Int) = (widths s).1) ∧
      (widths s).2 = (((splitLines s).getLast (splitLines_ne_nil s)).length : Int) ∧
      widths [] = (0, 0) ∧
      (newline ∉ s → widths s = ((s.length : Int), (s.length : Int))) ∧
      (widths (s ++ [newline])).2 = 0 := by
  refine ⟨fun fuel h => ?_, ⟨splitLines_join s, splitLines_no_newline s, splitLines_length s⟩,
    ?_, ?_, by decide, widths_single_line s, ?_⟩
  · rw [widthsLoop_lines fuel s 0 h, widths_lines]
    have := longestLine_nonneg (splitLines s)
    by_cases h0 : longestLine (splitLines s) > 0
    · simp [h0]
    · have : longestLine (splitLines s) = 0 := by omega
      simp [this]
  · rw [widths_lines]
    exact longestLine_max _ (splitLines_ne_nil s)
  · rw [widths_lines]
    exact lastLine_getLast _ _
  · rw [widths_lines]
    exact lastLine_trailing_newline s

/-- Witness of C17: three lines, the longest in the middle. -/
theorem widths_lines_spec_witness :
    splitLines (str "ab\ncdef\nx") = [str "ab", str "cdef", str "x"] ∧
      widths (str "ab\ncdef\nx") = (4, 1) ∧
      (newline ∉ str "abc" → widths (str "abc") = (((str "abc").length : Int),
        ((str "abc").length : Int))) :=
  ⟨by decide, by decide, (widths_lines_spec (str "abc")).2.2.2.2.2.1⟩

/-- C20. For every string the two results of `widths` satisfy
`0 ≤ last ≤ max ≤ len(s)`. -/
theorem widths_bounds (s : GoString) :
    0 ≤ (widths s).2 ∧ (widths s).2 ≤ (widths s).1 ∧ (widths s).1 ≤ (s.length : Int) := by
  rw [widths_lines]
  exact ⟨(lastLine_bounds _).1, (lastLine_bounds _).2, longestLine_le_length s⟩

/-- C11. The map renderer hands to `visit` only children with the flags of the
specification. For a map Value `v` of type `map[kt]et`: the keys are rendered
the same by two `visit` that agree on every Value with static type `kt`,
marked ambiguous exactly when `kt` is of interface kind, with an unambiguous
static type and the `IsUnexported` of `v`; the loop over the elements is the
same for two `visit` that agree on the Values with static type `et`, marked
exactly when `et` is of interface kind; and the whole of `visitMap` is the
same for two `visit` that agree on these two families. The mark of the keys
depends on `kt` alone and that of the elements on `et` alone. -/
theorem visitMap_child_flags {σ : Type} {env1 env2 : Env} (W : Writer σ)
    (hheap : env1.heap = env2.heap) (hamb : env1.IsAmbiguousType = env2.IsAmbiguousType)
    (hname : env1.TypeName = env2.TypeName) (v : Value) (kt et : RType)
    (hd : v.DynamicType = some (.map kt et)) (vis : visitor) (w : σ) :
    ((∀ vis2 x, ChildOf v kt x → env1.visit vis2 x = env2.visit vis2 x) →
        vis.formatMapKeys env1 v = vis.formatMapKeys env2 v) ∧
      ((∀ vis2 x, ChildOf v et x → env1.visit vis2 x = env2.visit vis2 x) →
        ∀ (al : Int) (keys : List mapKey),
          visitMapElementsLoop env1 W v et (decide (et.Kind = Kind.Interface)) al keys vis w =
            visitMapElementsLoop env2 W v et (decide (et.Kind = Kind.Interface)) al keys vis w) ∧
      ((∀ vis2 x, ChildOf v kt x ∨ ChildOf v et x → env1.visit vis2 x = env2.visit vis2 x) →
        vis.visitMap env1 W w v = vis.visitMap env2 W w v) := by
  refine ⟨fun H => ?_, fun H al keys => ?_, fun H => ?_⟩
  · exact formatMapKeys_congr_child hheap v kt et hd
      (fun vis2 _ _ _ _ x typ _ _ => H vis2 _ (childValue_childOf v x typ kt)) vis
  · exact visitMapElementsLoop_congr_child W hheap v et _ al
      (fun vis2 _ _ x typ _ _ _ => H vis2 _ (childValue_childOf v x typ et)) keys vis w
  · exact visitMap_congr_child W hheap hamb hname v kt et hd
      (fun vis2 _ _ _ _ x typ _ _ => H vis2 _ (Or.inl (childValue_childOf v x typ kt)))
      (fun vis2 _ _ x typ _ _ _ => H vis2 _ (Or.inr (childValue_childOf v x typ et))) vis w

/-- Witness of C11: a map from `string` to `interface{}`. A `visit` that
panics on every Value but unmarked keys of static type `string` and marked
elements of static type `interface{}` renders the map as the plain one does,
the element with its type and the keys without. -/
theorem visitMap_child_flags_witness :
    (mapValue stringAnyT 1).DynamicType = some (.map stringT anyT) ∧
      vis0.visitMap (leafEnv (heapOf anyEntries)) Builder [] (mapValue stringAnyT 1) =
        vis0.visitMap (restrictVisit (leafEnv (heapOf anyEntries)) stringAnyChild) Builder []
          (mapValue stringAnyT 1) ∧
      (vis0.visitMap (restrictVisit (leafEnv (heapOf anyEntries)) stringAnyChild) Builder []
          (mapValue stringAnyT 1)).w = str "\x7b\n    \"k\": int(1)\n    \"n\": nil\n\x7d" ∧
      (vis0.visitMap (restrictVisit (leafEnv (heapOf anyEntries)) stringAnyChild) Builder []
          (mapValue stringAnyT 1)).err = none :=
  ⟨rfl,
    (@visitMap_child_flags _ (leafEnv (heapOf anyEntries))
      (restrictVisit (leafEnv (heapOf anyEntries)) stringAnyChild) Builder rfl rfl rfl
      (mapValue stringAnyT 1) stringT anyT rfl vis0 []).2.2
      (fun vis2 x hx => by
        have hP : stringAnyChild x = true := by
          rcases hx with ⟨h1, h2, h3, h4⟩ | ⟨h1, h2, h3, h4⟩ <;>
            simp only [stringAnyChild, h1, h2, h3, h4] <;> decide
        simp [restrictVisit, hP]),
    by decide, by decide⟩

/-- C18. Interface unwrapping in the map renderer. For a map Value `v` of type
`map[kt]et` whose entries are well typed, every child handed to `visit` is
made of a stored key or element in one of three ways (`Unwrapped`): the value
held by a non-nil interface, with the concrete type of that value; a nil
interface itself, with the interface type; or, for a declared type that is no
interface, the stored value itself with the declared type. Two `visit` that
agree on such children render the keys, and the whole map, the same. -/
theorem visitMap_unwraps_interfaces {σ : Type} {env1 env2 : Env} (W : Writer σ)
    (hheap : env1.heap = env2.heap) (hamb : env1.IsAmbiguousType = env2.IsAmbiguousType)
    (hname : env1.TypeName = env2.TypeName) (v : Value) (kt et : RType) (p : Nat)
    (hv : v.Value = .map (.map kt et) p) (hd : v.DynamicType = some (.map kt et))
    (hwt : ∀ e ∈ env2.heap p, hasType kt e.1 = true ∧ hasType et e.2 = true)
    (vis : visitor) (w : σ) :
    ((∀ vis2 x, (∃ e ∈ env2.heap p, Unwrapped kt e.1 x) →
          env1.visit vis2 x = env2.visit vis2 x) →
        vis.formatMapKeys env1 v = vis.formatMapKeys env2 v) ∧
      ((∀ vis2 x, (∃ e ∈ env2.heap p, Unwrapped kt e.1 x ∨ Unwrapped et e.2 x) →
          env1.visit vis2 x = env2.visit vis2 x) →
        vis.visitMap env1 W w v = vis.visitMap env2 W w v) := by
  have hkey : ∀ (H : ∀ vis2 x, (∃ e ∈ env2.heap p, Unwrapped kt e.1 x) →
        env1.visit vis2 x = env2.visit vis2 x),
      ∀ vis2 mks, v.Value.MapKeys env2.heap = .ok mks → ∀ x0 ∈ mks, ∀ x typ,
        unwrap (decide (kt.Kind = Kind.Interface)) x0 = .ok x → x.Type = .ok typ →
        env1.visit vis2 (childValue v x typ kt (decide (kt.Kind = Kind.Interface))) =
          env2.visit vis2 (childValue v x typ kt (decide (kt.Kind = Kind.Interface))) := by
    intro H vis2 mks hmks x0 hx0 x typ hun hty
    rw [hv] at hmks
    simp only [RValue.MapKeys] at hmks
    injection hmks with hmks
    subst hmks
    obtain ⟨e, he, rfl⟩ := List.mem_map.1 hx0
    exact H vis2 _ ⟨e, he, unwrapped_child v kt e.1 x typ (hwt e he).1 hun hty⟩
  refine ⟨fun H => formatMapKeys_congr_child hheap v kt et hd (hkey H) vis, fun H => ?_⟩
  refine visitMap_congr_child W hheap hamb hname v kt et hd
    (hkey (fun vis2 x ⟨e, he, hu⟩ => H vis2 x ⟨e, he, Or.inl hu⟩)) ?_ vis w
  intro vis2 key x0 x typ hidx hun hty
  rw [hv] at hidx
  simp only [RValue.MapIndex] at hidx
  injection hidx with hidx
  rcases lookupKey_mem (assignTo kt key) (env2.heap p) with h0 | hmem
  · rw [h0] at hidx
    subst hidx
    by_cases hk : et.Kind = Kind.Interface
    · simp [unwrap, hk, RValue.IsNil] at hun
    · simp only [unwrap, hk, decide_False] at hun
      injection hun with hun
      subst hun
      simp [RValue.Type] at hty
  · rw [hidx] at hmem
    obtain ⟨e, he, rfl⟩ := List.mem_map.1 hmem
    exact H vis2 _ ⟨e, he, Or.inr (unwrapped_child v et e.2 x typ (hwt e he).2 hun hty)⟩

/-- Witness of C18: a map from `string` to `interface{}` with an element `1`
held by an interface and a nil element. A `visit` that panics on every Value
but the two keys with the type `string`, the `1` with the type `int` and the
nil interface with the interface type renders the map as the plain one
does. -/
theorem visitMap_unwraps_interfaces_witness :
    (mapValue stringAnyT 1).Value = .map (.map stringT anyT) 1 ∧
      (mapValue stringAnyT 1).DynamicType = some (.map stringT anyT) ∧
      (∀ e ∈ heapOf anyEntries 1, hasType stringT e.1 = true ∧ hasType anyT e.2 = true) ∧
      vis0.visitMap (leafEnv (heapOf anyEntries)) Builder [] (mapValue stringAnyT 1) =
        vis0.visitMap (restrictVisit (leafEnv (heapOf anyEntries)) anyEntriesChild) Builder []
          (mapValue stringAnyT 1) ∧
      (vis0.visitMap (restrictVisit (leafEnv (heapOf anyEntries)) anyEntriesChild) Builder []
          (mapValue stringAnyT 1)).w = str "\x7b\n    \"k\": int(1)\n    \"n\": nil\n\x7d" ∧
      (vis0.visitMap (restrictVisit (leafEnv (heapOf anyEntries)) anyEntriesChild) Builder []
          (mapValue stringAnyT 1)).err = none :=
  ⟨rfl, rfl, by decide,
    (@visitMap_unwraps_interfaces _ (leafEnv (heapOf anyEntries))
      (restrictVisit (leafEnv (heapOf anyEntries)) anyEntriesChild) Builder rfl rfl rfl
      (mapValue stringAnyT 1) stringT anyT 1 rfl rfl (by decide) vis0 []).2
      (fun vis2 x hx => by
        have hP : anyEntriesChild x = true := by
          obtain ⟨e, he, hu⟩ := hx
          have he2 : e = (strVal "\"k\"", .iface anyT (intVal "1")) ∨
              e = (strVal "\"n\"", .nilIface anyT) := by
            simpa [restrictVisit, leafEnv, heapOf, anyEntries] using he
          rcases he2 with rfl | rfl
          · rcases hu with hu | hu
            · cases hu with
              | direct _ _ _ h1 h2 => simp [anyEntriesChild, h1, h2]
            · cases hu with
              | held _ _ typ _ _ h1 _ h2 h3 =>
                have : typ = intT := by
                  simp only [intVal, RValue.Type] at h1
                  injection h1 with h1
                  exact h1.symm
                subst this
                simp [anyEntriesChild, h2, h3]
              | direct _ _ hk _ _ => exact absurd rfl hk
          · rcases hu with hu | hu
            · cases hu with
              | direct _ _ _ h1 h2 => simp [anyEntriesChild, h1, h2]
            · cases hu with
              | nil _ _ _ h1 h2 => simp [anyEntriesChild, h1, h2]
              | direct _ _ hk _ _ => exact absurd rfl hk
        simp [restrictVisit, hP]),
    by decide, by decide⟩

/-- C12. The root Value of `Printer.Write`. For an input `v` (an untyped nil,
or a valid value held by the interface) the traversal is handed a Value with
both ambiguity flags set, `IsUnexported` unset and static type `interface {}`,
whose dynamic type is absent exactly when `v` is the untyped nil and is
otherwise the run-time type of the value held: two traversals that agree on
such Values give the same `Write`, and the same `Format`. -/
theorem Write_root_value {φ σ : Type} (p : Printer φ) (S : Sink σ) (w : σ)
    (v : Option RValue) (hv : v ≠ some RValue.invalid) :
    (∀ mv1 mv2 : Printer.visitor φ → Writer (CountWriter σ) → CountWriter σ → Value →
        Traversal (CountWriter σ),
      (∀ vis W cw x, RootOf v x → mv1 vis W cw x = mv2 vis W cw x) →
        p.Write mv1 S w v = p.Write mv2 S w v) ∧
      (∀ mv1 mv2 : Printer.visitor φ → Writer (CountWriter GoString) → CountWriter GoString →
          Value → Traversal (CountWriter GoString),
        (∀ vis W cw x, RootOf v x → mv1 vis W cw x = mv2 vis W cw x) →
          p.Format mv1 v = p.Format mv2 v) := by
  have hroot : RootOf v (rootOf v) := by
    refine ⟨rfl, rfl, rfl, rfl, ?_, ?_⟩
    · cases v with
      | none => simp [rootOf, ValueOf, RValue.Type, Except.toOption]
      | some x =>
        cases x with
        | invalid => exact absurd rfl hv
        | basic t d => simp [rootOf, ValueOf, RValue.Type, Except.toOption]
        | nilIface t => simp [rootOf, ValueOf, RValue.Type, Except.toOption]
        | iface t h => simp [rootOf, ValueOf, RValue.Type, Except.toOption]
        | map t q => simp [rootOf, ValueOf, RValue.Type, Except.toOption]
    · intro rv hrv
      subst hrv
      exact ⟨rfl, rfl⟩
  have hW : ∀ {τ : Type} (S2 : Sink τ) (w2 : τ)
      (mv1 mv2 : Printer.visitor φ → Writer (CountWriter τ) → CountWriter τ → Value →
        Traversal (CountWriter τ)),
      (∀ vis W cw x, RootOf v x → mv1 vis W cw x = mv2 vis W cw x) →
        p.Write mv1 S2 w2 v = p.Write mv2 S2 w2 v := by
    intro τ S2 w2 mv1 mv2 H
    rw [Write_eq, Write_eq]
    have ht : p.traversal mv1 S2 w2 v = p.traversal mv2 S2 w2 v := H _ _ _ _ hroot
    rw [ht]
  refine ⟨fun mv1 mv2 H => hW S w mv1 mv2 H, fun mv1 mv2 H => ?_⟩
  unfold Printer.Format
  rw [hW BuilderSink [] mv1 mv2 H]

/-- Witness of C12: the map `1: 100`, `2: 200` at the root. A traversal that
panics on a root Value without the flags, the static type or a dynamic type
prints what the plain one prints, the type of the map first. -/
theorem Write_root_value_witness :
    some (RValue.map intIntT 1) ≠ some RValue.invalid ∧
      printer0.Format (mapTraversal (heapOf intsEntries) "sink: full")
          (some (RValue.map intIntT 1)) =
        printer0.Format (rootTraversal (heapOf intsEntries) "sink: full")
          (some (RValue.map intIntT 1)) ∧
      (printer0.Format (rootTraversal (heapOf intsEntries) "sink: full")
          (some (RValue.map intIntT 1))).2 =
        .returned (str "map[int]int\x7b\n    1: 100\n    2: 200\n\x7d") :=
  ⟨by decide,
    (Write_root_value printer0 BuilderSink [] (some (RValue.map intIntT 1)) (by decide)).2
      (mapTraversal (heapOf intsEntries) "sink: full")
      (rootTraversal (heapOf intsEntries) "sink: full")
      (fun vis W cw x hx => by
        obtain ⟨h1, h2, h3, h4, h5, h6⟩ := hx
        have h7 : x.DynamicType.isSome = true := by
          cases hd : x.DynamicType with
          | none => exact absurd (h5.1 hd) (by simp)
          | some t => rfl
        simp [rootTraversal, h1, h2, h3, h4, h7]),
    by decide⟩

/-- C13, at the failing input: the map `1: 100`, `2: 200` printed to a sink
that fails after 10 bytes, and after 20. The sink holds the 10 (the 20) bytes
written before the error and `Write` returns the error with `n = 0`, since
`n = cw.Count()` is never reached. Printed to a sink with room enough, `n` is
the 36 bytes written. -/
theorem Write_count_on_failure :
    ((printer0.Write (mapTraversal (heapOf intsEntries) "sink: full") LimitedSink (sinkOf 10)
          (some (RValue.map intIntT 1))).w.buf = str "map[int]in" ∧
        (printer0.Write (mapTraversal (heapOf intsEntries) "sink: full") LimitedSink (sinkOf 10)
          (some (RValue.map intIntT 1))).out = .returned (0, some "sink: full")) ∧
      ((printer0.Write (mapTraversal (heapOf intsEntries) "sink: full") LimitedSink (sinkOf 20)
          (some (RValue.map intIntT 1))).w.buf = str "map[int]int\x7b\n    1: " ∧
        (printer0.Write (mapTraversal (heapOf intsEntries) "sink: full") LimitedSink (sinkOf 20)
          (some (RValue.map intIntT 1))).out = .returned (0, some "sink: full")) ∧
      ((printer0.Write (mapTraversal (heapOf intsEntries) "sink: full") LimitedSink (sinkOf 100)
          (some (RValue.map intIntT 1))).w.buf =
            str "map[int]int\x7b\n    1: 100\n    2: 200\n\x7d" ∧
        (printer0.Write (mapTraversal (heapOf intsEntries) "sink: full") LimitedSink (sinkOf 100)
          (some (RValue.map intIntT 1))).out = .returned (36, none)) := by
  decide

/-- C14. The error of `Printer.Write` and the result of `Printer.Format`.
`Write` returns with a nil error exactly when the traversal completes; when
the traversal is aborted with an error `e` (the `must` sentinel that a failed
write or a filter raises) `Write` returns that `e`; a panic with another value
leaves `Write`. `Format` returns the text that `Write` wrote to its builder
when `Write` returns no error, and panics with the error that `Write`
returns. -/
theorem Write_error {φ σ : Type}
    (mv : Printer.visitor φ → Writer (CountWriter σ) → CountWriter σ → Value →
      Traversal (CountWriter σ))
    (mvb : Printer.visitor φ → Writer (CountWriter GoString) → CountWriter GoString → Value →
      Traversal (CountWriter GoString))
    (p : Printer φ) (S : Sink σ) (w : σ) (v : Option RValue) :
    ((∃ n, (p.Write mv S w v).out = .returned (n, none)) ↔
        (p.traversal mv S w v).panic = none) ∧
      (∀ e, (p.traversal mv S w v).panic = some (.sentinel e) →
        ∃ n, (p.Write mv S w v).out = .returned (n, some e)) ∧
      (∀ x, (p.traversal mv S w v).panic = some (.value x) →
        (p.Write mv S w v).out = .panicked (.value x)) ∧
      (∀ n, (p.Write mvb BuilderSink [] v).out = .returned (n, none) →
        (p.Format mvb v).2 = .returned (p.Write mvb BuilderSink [] v).w) ∧
      (∀ n e, (p.Write mvb BuilderSink [] v).out = .returned (n, some e) →
        (p.Format mvb v).2 = .panicked (.value e)) ∧
      (∀ x, (p.Write mvb BuilderSink [] v).out = .panicked x →
        (p.Format mvb v).2 = .panicked x) := by
  refine ⟨?_, ?_, ?_, ?_, ?_, ?_⟩
  · rw [Write_eq]
    cases h : (p.traversal mv S w v).panic with
    | none => simp
    | some pn => cases pn <;> simp
  · intro e h
    rw [Write_eq, h]
    exact ⟨0, rfl⟩
  · intro x h
    rw [Write_eq, h]
  · intro n h
    simp only [Printer.Format, h]
  · intro n e h
    simp only [Printer.Format, h]
  · intro x h
    simp only [Printer.Format, h]

/-- Witness of C14: the map `1: 100`, `2: 200`. To a sink that fails with
`"sink: full"` after 20 bytes `Write` returns that error; `Format` returns
the whole text. -/
theorem Write_error_witness :
    (∃ n, (printer0.Write (mapTraversal (heapOf intsEntries) "sink: full") LimitedSink
        (sinkOf 20) (some (RValue.map intIntT 1))).out = .returned (n, some "sink: full")) ∧
      (printer0.Format (mapTraversal (heapOf intsEntries) "sink: full")
          (some (RValue.map intIntT 1))).2 =
        .returned (str "map[int]int\x7b\n    1: 100\n    2: 200\n\x7d") :=
  ⟨(Write_error (mapTraversal (heapOf intsEntries) "sink: full")
      (mapTraversal (heapOf intsEntries) "sink: full") printer0 LimitedSink (sinkOf 20)
      (some (RValue.map intIntT 1))).2.1 "sink: full" (by decide),
    by decide⟩

/-- C15. The traversal that `p.Write` starts has the filters of `p.Config`,
the indent `DefaultIndent` (four spaces) if `p.Config.Indent` is empty and
`p.Config.Indent` otherwise, and the marker `"<recursion>"` if
`p.Config.RecursionMarker` is empty and `p.Config.RecursionMarker` otherwise:
`Write` is the same when the traversal is given that configuration whatever it
is handed. So the indent in use is the default exactly when `p.Config.Indent`
is empty or is the default itself, and likewise for the marker. The printer is
the same after the call. -/
theorem Write_config_defaults {φ σ : Type}
    (mv : Printer.visitor φ → Writer (CountWriter σ) → CountWriter σ → Value →
      Traversal (CountWriter σ))
    (p : Printer φ) (S : Sink σ) (w : σ) (v : Option RValue) :
    p.Write mv S w v =
        p.Write (fun _ => mv
          { config :=
            { Filters := p.Config.Filters
              Indent := if p.Config.Indent.length = 0 then DefaultIndent else p.Config.Indent
              RecursionMarker :=
                if p.Config.RecursionMarker = [] then DefaultRecursionMarker
                else p.Config.RecursionMarker } }) S w v ∧
      ((if p.Config.Indent.length = 0 then DefaultIndent else p.Config.Indent) = DefaultIndent ↔
        p.Config.Indent.length = 0 ∨ p.Config.Indent = DefaultIndent) ∧
      ((if p.Config.RecursionMarker = [] then DefaultRecursionMarker
          else p.Config.RecursionMarker) = DefaultRecursionMarker ↔
        p.Config.RecursionMarker = [] ∨ p.Config.RecursionMarker = DefaultRecursionMarker) ∧
      DefaultIndent = str "    " ∧ DefaultRecursionMarker = str "<recursion>" ∧
      (p.Write mv S w v).p = p := by
  refine ⟨?_, ?_, ?_, rfl, rfl, ?_⟩
  · rw [Write_eq, Write_eq]
    rfl
  · by_cases h : p.Config.Indent.length = 0 <;> simp [h]
  · by_cases h : p.Config.RecursionMarker = [] <;> simp [h]
  · rw [Write_eq]
    cases (p.traversal mv S w v).panic with
    | none => rfl
    | some pn => cases pn <;> rfl

/-- C19, at the failing input: the counts passed to `strings.Repeat`. For the
map with a single-line key as wide as the widest line of a multi-line key,
enumerated multi-line key first, they are `-1` and `22` (enumerated the other
way round, `0` and `23`); for the map whose only key renders as a newline the
count is `-1`. `strings.Repeat` panics on `-1`, and so does `visitMap`. -/
theorem visitMapElements_negative_padding :
    paddingCounts (leafEnv (heapOf tieEntriesSwapped)) vis1 (mapValue stringStringT 1) =
        [-1, 22] ∧
      paddingCounts (leafEnv (heapOf tieEntries)) vis1 (mapValue stringStringT 1) = [0, 23] ∧
      paddingCounts (leafEnv (heapOf newlineKeyEntries)) vis1 (mapValue stringIntT 1) = [-1] ∧
      Repeat (str " ") (-1) = .error "strings: negative Repeat count" ∧
      (vis0.visitMap (leafEnv (heapOf newlineKeyEntries)) Builder []
        (mapValue stringIntT 1)).err = some "strings: negative Repeat count" ∧
      (vis0.visitMap (leafEnv (heapOf newlineKeyEntries)) Builder []
        (mapValue stringIntT 1)).w = str "\x7b\n    \n    : " :=
  ⟨by decide, by decide, by decide, rfl, by decide, by decide⟩

/-- C2. A non-empty map whose keys all render as single lines of at least one
byte, and whose keys and elements render without a panic: the alignment is the
width of the widest rendered key; `visitMapElements` completes and writes, for
every key in sorted order, the key, `": "`, as many spaces as the widest width
exceeds the width of the key, the value and a newline; so every value starts
in column widest width + 2. The alignment is that of the keys the map has: a
map without its widest key is aligned against the widest key left. -/
theorem visitMapElements_single_line {env : Env} (hb : Balanced env) (vis : visitor)
    (v : Value) (t kt et : RType) (p : Nat) (hv : v.Value = .map t p)
    (hd : v.DynamicType = some (.map kt et)) (hne : env.heap p ≠ [])
    (hk : ∀ k ∈ (env.heap p).map Prod.fst, KeyRenders env vis v kt k)
    (hline : ∀ k ∈ (env.heap p).map Prod.fst,
      newline ∉ (keyOf env vis v kt k).String ∧ (keyOf env vis v kt k).String ≠ [])
    (he : ∀ k ∈ (env.heap p).map Prod.fst,
      ElemRenders env vis v et (keyOf env vis v kt k).Value) :
    ((∀ mk ∈ (vis.formatMapKeys env v).keys,
          (mk.String.length : Int) ≤ (vis.formatMapKeys env v).alignment) ∧
        ∃ mk ∈ (vis.formatMapKeys env v).keys,
          (mk.String.length : Int) = (vis.formatMapKeys env v).alignment) ∧
      (∀ b : GoString,
        (vis.visitMapElements env Builder b v).err = none ∧
          (vis.visitMapElements env Builder b v).w =
            b ++ ((vis.formatMapKeys env v).keys.map fun mk =>
              mk.String ++ str ": " ++
                spaces ((vis.formatMapKeys env v).alignment - (mk.String.length : Int)) ++
                (env.visit vis (elemValue env v et mk.Value)).text ++ str "\n").flatten) ∧
      ∀ mk ∈ (vis.formatMapKeys env v).keys,
        ((mk.String ++ str ": " ++
            spaces ((vis.formatMapKeys env v).alignment - (mk.String.length : Int))).length : Int) =
          (vis.formatMapKeys env v).alignment + 2 := by
  obtain ⟨hkerr, hkeys⟩ := formatMapKeys_keys hb vis v t kt et p hv hd hk
  have hsome : ∃ k ∈ (env.heap p).map Prod.fst, (keyOf env vis v kt k).String ≠ [] := by
    cases hh : env.heap p with
    | nil => exact absurd hh hne
    | cons e rest =>
      refine ⟨e.1, by simp, ?_⟩
      exact (hline e.1 (by rw [hh]; simp)).2
  obtain ⟨_, hle, hex⟩ := formatMapKeys_alignment_single_line hb vis v t kt et p hv hd hk
    (fun k hk1 => (hline k hk1).1) hsome
  have hmem : ∀ mk, mk ∈ (vis.formatMapKeys env v).keys ↔
      ∃ k ∈ (env.heap p).map Prod.fst, keyOf env vis v kt k = mk := by
    intro mk
    rw [hkeys, (sortSlice_perm _ _).mem_iff, List.mem_map]
  have hwidth : ∀ mk ∈ (vis.formatMapKeys env v).keys, mk.Width = (mk.String.length : Int) := by
    intro mk hmk
    obtain ⟨k, hk1, rfl⟩ := (hmem mk).1 hmk
    have := widths_single_line (keyOf env vis v kt k).String (hline k hk1).1
    simp only [keyOf] at this ⊢
    rw [this]
  have hle2 : ∀ mk ∈ (vis.formatMapKeys env v).keys,
      (mk.String.length : Int) ≤ (vis.formatMapKeys env v).alignment := by
    intro mk hmk
    obtain ⟨k, hk1, rfl⟩ := (hmem mk).1 hmk
    exact hle k hk1
  have hok : (elementsLoopOut env v et (decide (et.Kind = Kind.Interface))
      (vis.formatMapKeys env v).alignment (vis.formatMapKeys env v).keys vis).err = none := by
    refine elementsLoopOut_ok hb v et _ _ vis (fun mk hmk => ⟨?_, ?_⟩)
    · rw [hwidth mk hmk]
      have := hle2 mk hmk
      omega
    · obtain ⟨k, hk1, rfl⟩ := (hmem mk).1 hmk
      exact he k hk1
  refine ⟨⟨hle2, ?_⟩, fun b => ?_, fun mk hmk => ?_⟩
  · obtain ⟨k, hk1, hk2⟩ := hex
    exact ⟨keyOf env vis v kt k, (hmem _).2 ⟨k, hk1, rfl⟩, hk2⟩
  · rw [visitMapElements_faithful Builder_faithful]
    simp only [elementsOut_eq hb vis v kt et hd hkerr]
    refine ⟨hok, ?_⟩
    rw [elementsLoopOut_text hb v et _ _ vis hok]
    congr 2
    refine List.map_congr_left (fun mk hmk => ?_)
    simp only [entryText, hwidth mk hmk]
  · have := hle2 mk hmk
    simp only [List.length_append, spaces_length]
    have h2 : (str ": ").length = 2 := by decide
    rw [h2]
    omega

/-- Witness of C2: the single-line keys of
`TestPrinter_MultilineSyncMapKeyAlignment`. With `"the longest key in the
galaxy"` the alignment is 31 and both values start in column 33; without it
the alignment is 7. -/
theorem visitMapElements_single_line_witness :
    ((vis0.formatMapKeys (leafEnv (heapOf shortLongEntries))
          (mapValue stringStringT 1)).alignment = 31 ∧
        (vis0.visitMapElements (leafEnv (heapOf shortLongEntries)) Builder []
          (mapValue stringStringT 1)).w =
          str "\"short\":                         \"one\"\n\"the longest key in the galaxy\": \"two\"\n" ∧
        (vis0.formatMapKeys (leafEnv (heapOf shortEntries))
          (mapValue stringStringT 1)).alignment = 7 ∧
        (vis0.visitMapElements (leafEnv (heapOf shortEntries)) Builder []
          (mapValue stringStringT 1)).w = str "\"short\": \"one\"\n") ∧
      ∀ mk ∈ (vis0.formatMapKeys (leafEnv (heapOf shortLongEntries))
          (mapValue stringStringT 1)).keys,
        ((mk.String ++ str ": " ++
            spaces ((vis0.formatMapKeys (leafEnv (heapOf shortLongEntries))
              (mapValue stringStringT 1)).alignment - (mk.String.length : Int))).length : Int) =
          (vis0.formatMapKeys (leafEnv (heapOf shortLongEntries))
            (mapValue stringStringT 1)).alignment + 2 :=
  ⟨by decide,
    (visitMapElements_single_line (fun _ _ => rfl) vis0 (mapValue stringStringT 1)
      stringStringT stringT stringT 1 rfl rfl (by decide) (by decide) (by decide)
      (by decide)).2.2⟩

/-- C1, at the failing input: a single-line key as wide as the widest line of
a multi-line key, the multi-line key enumerated first. `formatMapKeys` returns
the two keys, sorted, with the alignment 23; `visitMapElements` writes the
first key and `": "` and panics in `strings.Repeat`: it emits neither of the
two entries. With the keys enumerated the other way round it emits both, in
the sorted order. -/
theorem visitMapElements_emits_no_entry :
    (vis1.formatMapKeys (leafEnv (heapOf tieEntriesSwapped)) (mapValue stringStringT 1)).err =
        none ∧
      (vis1.formatMapKeys (leafEnv (heapOf tieEntriesSwapped))
          (mapValue stringStringT 1)).keys.map mapKey.String =
        [str "\"the longest key in the\"",
          str "dapper_test.multiline\x7b\n    Key: \"multiline key\"\n\x7d"] ∧
      (vis1.visitMapElements (leafEnv (heapOf tieEntriesSwapped)) Builder []
        (mapValue stringStringT 1)).err = some "strings: negative Repeat count" ∧
      (vis1.visitMapElements (leafEnv (heapOf tieEntriesSwapped)) Builder []
        (mapValue stringStringT 1)).w = str "\"the longest key in the\": " ∧
      (vis1.visitMapElements (leafEnv (heapOf tieEntries)) Builder []
        (mapValue stringStringT 1)).err = none ∧
      (vis1.visitMapElements (leafEnv (heapOf tieEntries)) Builder []
        (mapValue stringStringT 1)).w =
        str "\"the longest key in the\": \"one\"\ndapper_test.multiline\x7b\n    Key: \"multiline key\"\n\x7d:                        \"three\"\n" := by
  decide

/-- C6, at the failing input: the map of two keys with `multilineKey`
enumerated first, not on the recursion guard, rendered by `visitMap`. The text
would be `"{\n"`, the two indented entries and `"}"`; `visitMap` writes
`"{\n"`, the indent, the first key and `": "`, and panics in
`strings.Repeat`: no value, no second entry, no closing brace. -/
theorem visitMap_text_cut_short :
    (heapOf tieEntriesSwapped 1).length = 2 ∧ 1 ∉ vis0.recursionSet ∧
      (vis1.formatMapKeys (leafEnv (heapOf tieEntriesSwapped))
        (mapValue stringStringT 1)).keys.length = 2 ∧
      str "\x7b\n" ++
          indentText (indentOf vis0.indent) false
            ((vis1.formatMapKeys (leafEnv (heapOf tieEntriesSwapped))
                (mapValue stringStringT 1)).keys.map
              (entryText (leafEnv (heapOf tieEntriesSwapped)) vis1 (mapValue stringStringT 1)
                stringT
                (vis1.formatMapKeys (leafEnv (heapOf tieEntriesSwapped))
                  (mapValue stringStringT 1)).alignment)).flatten ++
          str "\x7d" =
        str "\x7b\n    \"the longest key in the\": \"one\"\n    dapper_test.multiline\x7b\n        Key: \"multiline key\"\n    \x7d:                       \"three\"\n\x7d" ∧
      (vis0.visitMap (leafEnv (heapOf tieEntriesSwapped)) Builder []
        (mapValue stringStringT 1)).w = str "\x7b\n    \"the longest key in the\": " ∧
      (vis0.visitMap (leafEnv (heapOf tieEntriesSwapped)) Builder []
        (mapValue stringStringT 1)).err = some "strings: negative Repeat count" := by
  decide

end Dapper
